import Mathlib

/-!
Verification of the ShapetoRoute shape-to-route matching engine.

This file shallowly embeds the geometric core of the repository:

* `src/services/shapeAnalysisService.ts`  — `analyzeShape` (the service analyzer),
  namespace `Svc`;
* `src/utils/shapeAnalysis.ts`            — `normalizePoints`, `simplifyPath`,
  namespace `Utils`;
* the shape-analysis module concatenated into
  `src/services/offlineRouteService.ts`   — legacy `analyzeShape`, namespace `Legacy`;
* `src/services/offlineRouteService.ts`   — DTW / Hausdorff / Fourier / geometric
  similarity metrics, namespace `Offline`;
* `src/services/fallbackRouteService.ts`  — `getSimpleRoutes`, `generateDummyRoutes`,
  `findBasicRoutes`, namespace `Fallback`;
* `src/services/improvedOfflineRouteService.ts` — `preprocessRouteCandidates`,
  `smartFilterAndRank`, namespace `Improved`.

Conventions of the embedding:

* JavaScript `number` is embedded as `ℚ` wherever the source only performs
  field operations and comparisons, and as `ℝ` where the source calls
  `Math.sqrt` / `Math.exp` / trigonometry.  Comparisons of the form
  `Math.sqrt e < t` with `t > 0` guaranteed at the program point are embedded
  as the equivalent `e < t^2` on squares, which keeps them decidable; each such
  spot carries a comment.
* Fallible TypeScript code (`return null`, `throw`) is embedded as `Option`.
* `Math.random()` is embedded as an explicit stream `rand : ℕ → ℚ` of draws
  (the ambient random state made explicit).
* The `Infinity` sentinel used by the DTW/Hausdorff folds is embedded as `⊤`
  in `WithTop ℝ`.
-/

/-- A 2-D point, as the `{x, y}` records of `src/types.ts`. -/
structure Pt where
  x : ℚ
  y : ℚ
deriving DecidableEq, Repr

/-- Squared Euclidean distance between two points.  The sources compute
`Math.sqrt` of this; wherever only comparisons of distances occur we compare
the squares instead (the square root is monotone), which keeps the embedding
decidable. -/
def dist2 (p q : Pt) : ℚ :=
  (q.x - p.x) ^ 2 + (q.y - p.y) ^ 2

/-- The real Euclidean distance `getDistance`/`distance` of the sources. -/
noncomputable def distR (p q : Pt) : ℝ :=
  Real.sqrt (dist2 p q)

/-- `Math.min(...xs)` over a non-empty spread; the sources only apply it to
non-empty lists (the empty case, which yields `Infinity` in JS, is unreachable
behind the point-count guards). -/
def listMin : List ℚ → ℚ
  | [] => 0
  | x :: xs => xs.foldl min x

/-- `Math.max(...xs)` over a non-empty spread; see `listMin`. -/
def listMax : List ℚ → ℚ
  | [] => 0
  | x :: xs => xs.foldl max x

namespace Svc

/-- The decidable fields of the `ShapeFeatures` record produced by
`analyzeShape` in `src/services/shapeAnalysisService.ts`.  The real-valued
fields (`totalLength`, `complexity`, `straightness`, `averageRadius`), which
involve `Math.sqrt`/`Math.atan2`, are embedded as the standalone functions
`totalLength`, `complexitySvc`, `straightnessSvc` further below; the
`normalizedPath` SVG string and `centroid` are presentation data not referenced
by any claim. -/
structure FeaturesQ where
  width : ℚ
  height : ℚ
  aspectRatio : ℚ
  normPts : List (List Pt)
  startPt : Pt
  endPt : Pt
  isClosed : Bool
deriving DecidableEq, Repr

/-- First point of the drawing, `drawing[0][0]` of the source.  For drawings
whose strokes are all non-empty this is the first flattened point; the JS
`undefined` produced for an empty first stroke is not modelled (theorems that
use `startPt` assume non-empty strokes). -/
def startPt (drawing : List (List Pt)) : Pt :=
  (drawing.headD []).headD ⟨0, 0⟩

/-- Last point of the last stroke, `lastStroke[lastStroke.length - 1]`. -/
def endPt (drawing : List (List Pt)) : Pt :=
  (drawing.getLastD []).getLastD ⟨0, 0⟩

/-- Per-axis normalization of the drawing performed by the service
`analyzeShape` (step 1 of the source): `(p.x - minX) / width`,
`(p.y - minY) / height` — note the two distinct divisors. -/
def normalizedDrawing (drawing : List (List Pt)) (minX minY width height : ℚ) :
    List (List Pt) :=
  drawing.map fun stroke =>
    stroke.map fun p => ⟨(p.x - minX) / width, (p.y - minY) / height⟩

/-- `analyzeShape` of `src/services/shapeAnalysisService.ts`, restricted to its
guards and decidable fields.  Returns `none` exactly where the source returns
`null`.  The closed-loop test compares
`getDistance(start, end) < Math.min(width, height) * 0.15`; both sides are
non-negative at this program point (`width, height ≥ 1`), so it is embedded on
squares. -/
def analyzeShape (drawing : List (List Pt)) : Option FeaturesQ :=
  let allPoints := drawing.flatten
  if allPoints.length < 3 then none
  else
    let minX := listMin (allPoints.map (·.x))
    let maxX := listMax (allPoints.map (·.x))
    let minY := listMin (allPoints.map (·.y))
    let maxY := listMax (allPoints.map (·.y))
    let width := maxX - minX
    let height := maxY - minY
    if width < 1 ∨ height < 1 then none
    else
      let s := startPt drawing
      let e := endPt drawing
      let closeDistanceThreshold := min width height * (15 / 100)
      some
        { width := width
          height := height
          aspectRatio := width / height
          normPts := normalizedDrawing drawing minX minY width height
          startPt := s
          endPt := e
          isClosed := decide (dist2 s e < closeDistanceThreshold ^ 2) }

end Svc

/-- JavaScript `Math.atan2(y, x)`, by cases on the signs of the arguments
(the signed-zero distinctions of IEEE floats are not modelled). -/
noncomputable def jsAtan2 (y x : ℝ) : ℝ :=
  if 0 < x then Real.arctan (y / x)
  else if x < 0 then
    (if 0 ≤ y then Real.arctan (y / x) + Real.pi else Real.arctan (y / x) - Real.pi)
  else if 0 < y then Real.pi / 2
  else if y < 0 then -(Real.pi / 2)
  else 0

namespace Svc

/-- Minimum x over the flattened drawing, as the source's
`Math.min(...allPoints.map(p => p.x))`. -/
def minXOf (d : List (List Pt)) : ℚ := listMin (d.flatten.map (·.x))

/-- Maximum x over the flattened drawing. -/
def maxXOf (d : List (List Pt)) : ℚ := listMax (d.flatten.map (·.x))

/-- Minimum y over the flattened drawing. -/
def minYOf (d : List (List Pt)) : ℚ := listMin (d.flatten.map (·.y))

/-- Maximum y over the flattened drawing. -/
def maxYOf (d : List (List Pt)) : ℚ := listMax (d.flatten.map (·.y))

/-- Bounding-box width `maxX - minX`. -/
def widthOf (d : List (List Pt)) : ℚ := maxXOf d - minXOf d

/-- Bounding-box height `maxY - minY`. -/
def heightOf (d : List (List Pt)) : ℚ := maxYOf d - minYOf d

/-- The per-axis normalized strokes of the service `analyzeShape`
(`normalizedDrawing` of step 1, applied to the drawing's own bounding box). -/
def normStrokes (d : List (List Pt)) : List (List Pt) :=
  normalizedDrawing d (minXOf d) (minYOf d) (widthOf d) (heightOf d)

/-- Length contributed by one stroke: the source's
`for (i < stroke.length - 1) totalLength += getDistance(stroke[i], stroke[i+1])`. -/
noncomputable def strokeLength (s : List Pt) : ℝ :=
  ((s.zip s.tail).map fun pq => distR pq.1 pq.2).sum

/-- `totalLength` of the service `analyzeShape` (step 4): summed over the
normalized strokes. -/
noncomputable def totalLength (d : List (List Pt)) : ℝ :=
  ((normStrokes d).map strokeLength).sum

/-- `getAngle` of `shapeAnalysisService.ts`: difference of the two `atan2`
bearings at `p2`, converted to degrees and folded into `[0, 180]`. -/
noncomputable def getAngleDeg (p1 p2 p3 : Pt) : ℝ :=
  let a := jsAtan2 ((p3.y : ℝ) - p2.y) ((p3.x : ℝ) - p2.x) -
    jsAtan2 ((p1.y : ℝ) - p2.y) ((p1.x : ℝ) - p2.x)
  let deg := a * 180 / Real.pi
  let deg := if deg < 0 then deg + 360 else deg
  if 180 < deg then 360 - deg else deg

open Classical in
/-- Number of corners detected in one normalized stroke: interior points
(`0 < i < stroke.length - 1`) whose vertex angle is below the 135° corner
threshold. -/
noncomputable def strokeCorners (s : List Pt) : ℕ :=
  (List.range s.length).countP fun i =>
    decide (1 ≤ i ∧ i + 1 < s.length ∧
      getAngleDeg (s.getD (i - 1) ⟨0, 0⟩) (s.getD i ⟨0, 0⟩) (s.getD (i + 1) ⟨0, 0⟩) < 135)

/-- Total corner count over the normalized strokes (`corners.length` of the
service `analyzeShape`). -/
noncomputable def cornerCount (d : List (List Pt)) : ℕ :=
  ((normStrokes d).map strokeCorners).sum

/-- `complexity` of the service `analyzeShape` (step 6):
`max(0.1, min(1, (min(totalLength/10, 1) + min(corners/10, 1)) / 2))`. -/
noncomputable def complexity (d : List (List Pt)) : ℝ :=
  let lengthFactor := min (totalLength d / 10) 1
  let cornerFactor := min ((cornerCount d : ℝ) / 10) 1
  max (1 / 10) (min 1 ((lengthFactor + cornerFactor) / 2))

/-- The per-axis normalized start point of step 5 of the service analyzer. -/
def normStart (d : List (List Pt)) : Pt :=
  ⟨((startPt d).x - minXOf d) / widthOf d, ((startPt d).y - minYOf d) / heightOf d⟩

/-- The per-axis normalized end point of step 5 of the service analyzer. -/
def normEnd (d : List (List Pt)) : Pt :=
  ⟨((endPt d).x - minXOf d) / widthOf d, ((endPt d).y - minYOf d) / heightOf d⟩

/-- `straightness` of the service `analyzeShape` (step 5):
`totalLength > 0 ? min(1, normalizedDirectDistance / totalLength) : 0`. -/
noncomputable def straightness (d : List (List Pt)) : ℝ :=
  if 0 < totalLength d then min 1 (distR (normStart d) (normEnd d) / totalLength d)
  else 0

end Svc

/-- The three scalar features that `calculateGeometricSimilarity` of
`offlineRouteService.ts` reads from a `ShapeFeatures` record, and that
`extractRouteFeatures` produces for a candidate path. -/
structure GeomFeatures where
  aspectRatio : ℝ
  complexity : ℝ
  straightness : ℝ

/-- The `GeomFeatures` of a drawing as produced by the service `analyzeShape`:
`aspectRatio = width / height` with the `complexity` and `straightness` of
steps 5–6. -/
noncomputable def Svc.geomFeatures (d : List (List Pt)) : GeomFeatures :=
  { aspectRatio := ((Svc.widthOf d / Svc.heightOf d : ℚ) : ℝ)
    complexity := Svc.complexity d
    straightness := Svc.straightness d }

namespace Offline

/-- `euclideanDistance` of `offlineRouteService.ts`, on `[lat, lon]` pairs. -/
noncomputable def euclideanDistance (p q : ℚ × ℚ) : ℝ :=
  Real.sqrt (((p.1 : ℝ) - q.1) ^ 2 + ((p.2 : ℝ) - q.2) ^ 2)

/-- `haversineDistance` of `offlineRouteService.ts`: great-circle distance in
kilometers (Earth radius 6371). -/
noncomputable def haversineDistance (p q : ℚ × ℚ) : ℝ :=
  let dLat := ((q.1 : ℝ) - p.1) * Real.pi / 180
  let dLon := ((q.2 : ℝ) - p.2) * Real.pi / 180
  let a := Real.sin (dLat / 2) * Real.sin (dLat / 2) +
    Real.cos ((p.1 : ℝ) * Real.pi / 180) * Real.cos ((q.1 : ℝ) * Real.pi / 180) *
      (Real.sin (dLon / 2) * Real.sin (dLon / 2))
  let c := 2 * jsAtan2 (Real.sqrt a) (Real.sqrt (1 - a))
  6371 * c

/-- `calculatePathDistance`: haversine distance summed over consecutive
points. -/
noncomputable def calculatePathDistance (path : List (ℚ × ℚ)) : ℝ :=
  ((path.zip path.tail).map fun pq => haversineDistance pq.1 pq.2).sum

open Classical in
/-- `extractRouteFeatures` of `offlineRouteService.ts`.  Note the unit mix in
`straightness`: `directDistance` is the plain Euclidean distance on raw
latitude/longitude *degrees* while `totalDistance` is the haversine length in
*kilometers*. -/
noncomputable def extractRouteFeatures (route : List (ℚ × ℚ)) : GeomFeatures :=
  if route.length < 3 then { aspectRatio := 1, complexity := 0, straightness := 1 }
  else
    let lats := route.map (·.1)
    let lons := route.map (·.2)
    let width := listMax lons - listMin lons
    let height := listMax lats - listMin lats
    let aspectRatio : ℝ := if 0 < width then ((height / width : ℚ) : ℝ) else 1
    let bearing := fun (p q : ℚ × ℚ) =>
      jsAtan2 ((q.2 : ℝ) - p.2) ((q.1 : ℝ) - p.1)
    let directionChanges :=
      (List.range route.length).countP fun i =>
        decide (1 ≤ i ∧ i + 1 < route.length ∧
          Real.pi / 4 <
            |bearing (route.getD i (0, 0)) (route.getD (i + 1) (0, 0)) -
              bearing (route.getD (i - 1) (0, 0)) (route.getD i (0, 0))|)
    let complexity : ℝ := min 1 ((directionChanges : ℝ) / ((route.length : ℝ) * (3 / 10)))
    let totalDistance := calculatePathDistance route
    let directDistance := euclideanDistance (route.headD (0, 0)) (route.getLastD (0, 0))
    let straightness := if 0 < totalDistance then directDistance / totalDistance else 1
    { aspectRatio := aspectRatio, complexity := complexity, straightness := straightness }

/-- `calculateGeometricSimilarity` of `offlineRouteService.ts`: mean of the
three pairwise scalar-feature similarities. -/
noncomputable def calculateGeometricSimilarity (sf : GeomFeatures)
    (route : List (ℚ × ℚ)) : ℝ :=
  let rf := extractRouteFeatures route
  let aspectRatioSim :=
    1 - |sf.aspectRatio - rf.aspectRatio| / max sf.aspectRatio rf.aspectRatio
  let complexitySim := 1 - |sf.complexity - rf.complexity|
  let straightnessSim := 1 - |sf.straightness - rf.straightness|
  (aspectRatioSim + complexitySim + straightnessSim) / 3

/-- The DTW cumulative-cost matrix of `calculateDTWSimilarity`: the source
fills an `(n+1) × (m+1)` array with `Infinity`, sets `dtw[0][0] = 0` and runs
`dtw[i][j] = d(i,j) + min(dtw[i-1][j], dtw[i][j-1], dtw[i-1][j-1])` for
`1 ≤ i ≤ n`, `1 ≤ j ≤ m`; the untouched `Infinity` cells are `⊤`. -/
noncomputable def dtwMat (A B : List (ℚ × ℚ)) : ℕ → ℕ → WithTop ℝ
  | 0, 0 => 0
  | 0, _ + 1 => ⊤
  | _ + 1, 0 => ⊤
  | i + 1, j + 1 =>
    (euclideanDistance (A.getD i (0, 0)) (B.getD j (0, 0)) : WithTop ℝ) +
      min (min (dtwMat A B i (j + 1)) (dtwMat A B (i + 1) j)) (dtwMat A B i j)

open Classical in
/-- `calculateDTWSimilarity` of `offlineRouteService.ts`:
`exp(-dtw[n][m] / max(n, m))`; the `⊤` case renders JavaScript's
`exp(-Infinity) = 0`. -/
noncomputable def calculateDTWSimilarity (A B : List (ℚ × ℚ)) : ℝ :=
  let final := dtwMat A B A.length B.length
  if final = ⊤ then 0
  else Real.exp (-(final.untop' 0) / ((max A.length B.length : ℕ) : ℝ))

end Offline

namespace Utils

/-- `normalizePoints` of `src/utils/shapeAnalysis.ts`: translate to the
bounding-box minimum and divide both coordinates by the single scale
`Math.max(width, height)`.  The JS guards `maxX - minX || 1` /
`maxY - minY || 1` replace a zero span by `1`. -/
def normalizePoints (points : List Pt) : List Pt × ℚ :=
  if points = [] then ([], 1)
  else
    let xs := points.map (·.x)
    let ys := points.map (·.y)
    let minX := listMin xs
    let maxX := listMax xs
    let minY := listMin ys
    let maxY := listMax ys
    let width := if maxX - minX = 0 then 1 else maxX - minX
    let height := if maxY - minY = 0 then 1 else maxY - minY
    let scale := max width height
    let aspectRatio := width / height
    (points.map fun p => ⟨(p.x - minX) / scale, (p.y - minY) / scale⟩, aspectRatio)

/-- `perpendicularDistance` of `simplifyPath`, squared.  The source compares
distances (square roots) only with each other and with the tolerance, so the
embedding works with squared distances throughout; the projection parameter
`t` is exact rational arithmetic. -/
def perpDistSq (point lineStart lineEnd : Pt) : ℚ :=
  let dx := lineEnd.x - lineStart.x
  let dy := lineEnd.y - lineStart.y
  if dx = 0 ∧ dy = 0 then dist2 point lineStart
  else
    let t := ((point.x - lineStart.x) * dx + (point.y - lineStart.y) * dy) /
      (dx * dx + dy * dy)
    dist2 point ⟨lineStart.x + t * dx, lineStart.y + t * dy⟩

/-- The maximum-distance scan of `douglasPeucker`: the loop
`for (i = start + 1; i < end; i++)` tracking `(maxDistance, maxIndex)` from
`(0, start)`, with squared distances. -/
def dpScan (pts : List Pt) (start en : ℕ) : ℚ × ℕ :=
  (List.range' (start + 1) (en - start - 1)).foldl
    (fun acc i =>
      let d := perpDistSq (pts.getD i ⟨0, 0⟩) (pts.getD start ⟨0, 0⟩) (pts.getD en ⟨0, 0⟩)
      if acc.1 < d then (d, i) else acc)
    (0, start)

/-- The recursive `douglasPeucker`, with explicit fuel: `none` models the
recursion failing to terminate (which the source does when `maxIndex` stays at
`start` while `maxDistance > tolerance`, possible only for a negative
tolerance).  The guard `maxDistance > tolerance` on real distances is embedded
as `tolerance < 0 ∨ tolerance² < maxDistanceSq`, which is equivalent because
`maxDistance ≥ 0`. -/
def dpFuel (pts : List Pt) (tol : ℚ) : ℕ → ℕ → ℕ → Option (List ℕ)
  | 0, _, _ => none
  | fuel + 1, start, en =>
    if en ≤ start + 1 then some []
    else
      let scan := dpScan pts start en
      if tol < 0 ∨ tol ^ 2 < scan.1 then
        (dpFuel pts tol fuel start scan.2).bind fun left =>
          (dpFuel pts tol fuel scan.2 en).map fun right => left ++ scan.2 :: right
      else some []

/-- `simplifyPath` of `src/utils/shapeAnalysis.ts`: keep index `0`, the
interior indices chosen by `douglasPeucker`, and the last index; sort
numerically; map back to points.  The fuel `points.length` is sufficient for
every non-negative tolerance (`dpFuel_isSome_of_nonneg` below); `none` records
the diverging negative-tolerance case. -/
def simplifyPath (points : List Pt) (tolerance : ℚ) : Option (List Pt) :=
  if points.length ≤ 2 then some points
  else
    (dpFuel points tolerance points.length 0 (points.length - 1)).map fun inner =>
      let keepIndices := (0 :: (inner ++ [points.length - 1])).mergeSort
        fun a b => decide (a ≤ b)
      keepIndices.map fun i => points.getD i ⟨0, 0⟩

end Utils

namespace Legacy

/-- The decidable fields of the legacy `ShapeFeatures` produced by the
`analyzeShape` of the shape-analysis module bundled with
`offlineRouteService.ts`.  Its angle/curvature fields (`corners`,
`curvaturePoints`, `complexity`, `symmetry`, `detectedType`, `totalLength`)
involve `Math.acos`/`Math.sqrt` and are referenced by no claim; they are
omitted from the record. -/
structure Features where
  minX : ℚ
  maxX : ℚ
  minY : ℚ
  maxY : ℚ
  centroid : Pt
  aspectRatio : ℚ
  normalizedPath : List Pt
  isClosed : Bool
deriving DecidableEq, Repr

/-- Legacy `normalizePath`: per-axis normalization, returning the path
unchanged when either span is zero. -/
def normalizePath (path : List Pt) : List Pt :=
  if path = [] then []
  else
    let minX := listMin (path.map (·.x))
    let maxX := listMax (path.map (·.x))
    let minY := listMin (path.map (·.y))
    let maxY := listMax (path.map (·.y))
    let width := maxX - minX
    let height := maxY - minY
    if width = 0 ∨ height = 0 then path
    else path.map fun p => ⟨(p.x - minX) / width, (p.y - minY) / height⟩

/-- Legacy `isClosedPath`: `distance(start, end) ≤ tolerance` (default 10),
embedded on squares; both call sites pass a non-negative tolerance. -/
def isClosedPath (path : List Pt) (tolerance : ℚ) : Bool :=
  if path.length < 3 then false
  else decide (dist2 (path.headD ⟨0, 0⟩) (path.getLastD ⟨0, 0⟩) ≤ tolerance ^ 2)

/-- Legacy `calculateCentroid`. -/
def calculateCentroid (points : List Pt) : Pt :=
  if points = [] then ⟨0, 0⟩
  else
    ⟨(points.map (·.x)).sum / points.length, (points.map (·.y)).sum / points.length⟩

/-- The legacy `analyzeShape` (the variant concatenated into
`offlineRouteService.ts`): it throws — embedded as `none` — only when the
flattened drawing has fewer than 2 points, and performs no bounding-box size
check at all.  Note the JS `aspectRatio` is `Infinity` for a degenerate
height; `ℚ` renders that division as `0`, and no claim reads this field. -/
def analyzeShape (drawing : List (List Pt)) : Option Features :=
  let allPoints := drawing.flatten
  if allPoints.length < 2 then none
  else
    let minX := listMin (allPoints.map (·.x))
    let maxX := listMax (allPoints.map (·.x))
    let minY := listMin (allPoints.map (·.y))
    let maxY := listMax (allPoints.map (·.y))
    some
      { minX := minX, maxX := maxX, minY := minY, maxY := maxY
        centroid := calculateCentroid allPoints
        aspectRatio := (maxX - minX) / (maxY - minY)
        normalizedPath := normalizePath allPoints
        isClosed := isClosedPath allPoints 10 }

end Legacy

/-- The transport modes of `src/types.ts`. -/
inductive TransportationMode
  | walking
  | cycling
  | driving
deriving DecidableEq, Repr

/-- The `speeds` table (km/h) shared by the offline, improved and fallback
services. -/
def speedOf : TransportationMode → ℚ
  | .walking => 5
  | .cycling => 15
  | .driving => 40

/-- `estimateDuration`: `(distance / speeds[mode]) * 60` minutes. -/
noncomputable def estimateDuration (distance : ℝ) (mode : TransportationMode) : ℝ :=
  distance / (speedOf mode : ℝ) * 60

namespace Fallback

/-- An Overpass way as the fallback service consumes it: only the optional
`geometry` member is read (`way.geometry?.map(...) || []`). -/
structure Way where
  geometry : Option (List (ℚ × ℚ))
deriving DecidableEq, Repr

/-- The `Route` records of `src/types.ts` as built by the route services.  The
free-text `description` is presentation-only string formatting
(`toFixed`-style) and is omitted. -/
structure Route where
  routeName : String
  distance : ℝ
  duration : ℝ
  similarityScore : ℝ
  path : List (ℝ × ℝ)

/-- `estimateDistance` of `fallbackRouteService.ts`: flat Euclidean length of
the path in degrees, scaled by 111 km/degree, clamped to `[0.5, 10]`; paths
with fewer than 2 points yield `1`. -/
noncomputable def estimateDistance (path : List (ℚ × ℚ)) : ℝ :=
  if path.length < 2 then 1
  else
    let d := ((path.zip path.tail).map fun pq =>
      Real.sqrt (((pq.2.1 : ℝ) - pq.1.1) ^ 2 + ((pq.2.2 : ℝ) - pq.1.2) ^ 2) * 111).sum
    max (1 / 2) (min 10 d)

/-- `getSimpleRoutes` of `fallbackRouteService.ts`, with its two effects made
explicit: `resp` is the Overpass fetch (the source catches any fetch/parse
error and returns `[]`), and `rand` is the stream of `Math.random()` draws
(one per produced route).  The `shapeFeatures` parameter of the source is not
read by the route construction and is dropped. -/
noncomputable def getSimpleRoutes (resp : Except Unit (List Way))
    (mode : TransportationMode) (rand : ℕ → ℚ) : List Route :=
  match resp with
  | .error _ => []
  | .ok ways =>
    (ways.take 3).enum.map fun iw =>
      let path := iw.2.geometry.getD []
      let distance := estimateDistance path
      { routeName := "مسیر ساده " ++ toString (iw.1 + 1)
        distance := distance
        duration := estimateDuration distance mode
        similarityScore := (3 / 10 : ℝ) + (rand iw.1 : ℝ) * (3 / 10)
        path := path.map fun p => ((p.1 : ℝ), (p.2 : ℝ)) }

/-- `generateDummyPath`: a random closed-ish loop around San Francisco; the
independent `Math.random()` draws are indexed explicitly (draw 0 sizes the
point count, draw `i + 1` perturbs the radius of point `i`). -/
noncomputable def generateDummyPath (rand : ℕ → ℚ) : List (ℝ × ℝ) :=
  let numPoints := 5 + (rand 0 * 10).floor.toNat
  (List.range numPoints).map fun (i : ℕ) =>
    let angle := (i : ℝ) / numPoints * (2 * Real.pi)
    let r := (1 / 100 : ℝ) * ((1 / 2 : ℝ) + ((rand (i + 1) : ℚ) : ℝ) * (1 / 2))
    (37.7749 + r * Real.cos angle, -122.4194 + r * Real.sin angle)

/-- `generateDummyRoutes`: exactly two placeholder routes with random numeric
fields; the draws of the two routes are given disjoint indices. -/
noncomputable def generateDummyRoutes (rand : ℕ → ℚ) : List Route :=
  [{ routeName := "🔄 مسیر نمونه ۱"
     distance := 2 + (rand 0 : ℝ) * 3
     duration := 30 + (rand 1 : ℝ) * 60
     similarityScore := (2 / 10 : ℝ) + (rand 2 : ℝ) * (2 / 10)
     path := generateDummyPath fun i => rand (100 + i) },
   { routeName := "🔄 مسیر نمونه ۲"
     distance := 1 + (rand 3 : ℝ) * 2
     duration := 20 + (rand 4 : ℝ) * 40
     similarityScore := (15 / 100 : ℝ) + (rand 5 : ℝ) * (25 / 100)
     path := generateDummyPath fun i => rand (200 + i) }]

/-- `findBasicRoutes` of `fallbackRouteService.ts`.  `getSimpleBbox` absorbs
its own geocoding failures (it falls back to a default bounding box) and
`getSimpleRoutes` catches its own fetch errors, so of the source's effects
only the shape-analysis outcome and the Overpass response decide the result:
a `null` shape analysis yields the dummy routes, otherwise the simple routes
are returned as-is — even when they are empty. -/
noncomputable def findBasicRoutes (drawing : List (List Pt))
    (resp : Except Unit (List Way)) (mode : TransportationMode)
    (rand : ℕ → ℚ) : List Route :=
  if (Svc.analyzeShape drawing).isSome then getSimpleRoutes resp mode rand
  else generateDummyRoutes rand

end Fallback

namespace Improved

/-- An OSM way as `improvedOfflineRouteService.ts` consumes it. -/
structure OSMWay where
  id : String
  nodes : List ℕ
  tags : List (String × String)
  geometry : Option (List (ℚ × ℚ))
deriving DecidableEq, Repr

/-- Path assembly of `preprocessRouteCandidates`: use the way's inline
`geometry` when present, otherwise resolve the node ids through the node
table, silently skipping missing nodes. -/
def wayPath (nodes : List (ℕ × (ℚ × ℚ))) (way : OSMWay) : List (ℚ × ℚ) :=
  match way.geometry with
  | some g => g
  | none => way.nodes.filterMap fun nid => nodes.lookup nid

/-- Modelled from the spec: the third-party `turf.simplify` (with
`tolerance: 0.0001, highQuality: true`, i.e. plain Douglas–Peucker) is not
part of the repository; §4.3 specifies "polyline simplification
(Douglas–Peucker or equivalent, tolerance configurable)", so it is modelled
with the repository's own Douglas–Peucker `Utils.simplifyPath` at that
tolerance (which keeps the endpoints, as Douglas–Peucker does). -/
def turfSimplify (path : List (ℚ × ℚ)) : List (ℚ × ℚ) :=
  let pts := path.map fun p => (⟨p.1, p.2⟩ : Pt)
  ((Utils.simplifyPath pts (1 / 10000)).getD pts).map fun p => (p.x, p.y)

/-- Modelled from the spec: the third-party `turf.distance` (great-circle
point distance in kilometers) is modelled by the repository's own haversine
formula. -/
noncomputable def turfDistanceKm (p q : ℚ × ℚ) : ℝ :=
  Offline.haversineDistance p q

/-- Modelled from the spec: the third-party `turf.length` used by
`calculateTurfDistance` — great-circle length of the polyline in kilometers;
the source catches the error `turf.lineString` raises on degenerate input and
returns `0`. -/
noncomputable def calculateTurfDistance (path : List (ℚ × ℚ)) : ℝ :=
  if path.length < 2 then 0
  else ((path.zip path.tail).map fun pq => turfDistanceKm pq.1 pq.2).sum

/-- `getTransportModeFromWay` of `improvedOfflineRouteService.ts`. -/
def getTransportModeFromWay (way : OSMWay) : TransportationMode :=
  let highway := (way.tags.lookup "highway").getD ""
  if highway ∈ ["footway", "path", "pedestrian", "steps"] then .walking
  else if highway = "cycleway" then .cycling
  else if highway ∈ ["primary", "secondary", "trunk", "motorway"] then .driving
  else .walking

/-- The `RouteCandidate` records of `improvedOfflineRouteService.ts`. -/
structure RouteCandidate where
  path : List (ℚ × ℚ)
  way : OSMWay
  similarity : ℚ
  confidence : ℚ
  distance : ℝ
  duration : ℝ

open Classical in
/-- The body of the `preprocessRouteCandidates` loop for one way: reject
paths with fewer than 2 points (`continue`), simplify, reject candidates
whose simplified first point lies more than 10 km from the search center
(`continue`), otherwise build the initial candidate
(`similarity: 0, confidence: 0.5`). -/
noncomputable def processWay (nodes : List (ℕ × (ℚ × ℚ))) (center : ℚ × ℚ)
    (way : OSMWay) : Option RouteCandidate :=
  let path := wayPath nodes way
  if path.length < 2 then none
  else
    let simplifiedPath := turfSimplify path
    let distanceFromCenter := turfDistanceKm center (simplifiedPath.headD (0, 0))
    if 10 < distanceFromCenter then none
    else
      let distance := calculateTurfDistance simplifiedPath
      some
        { path := simplifiedPath
          way := way
          similarity := 0
          confidence := 1 / 2
          distance := distance
          duration := estimateDuration distance (getTransportModeFromWay way) }

/-- `preprocessRouteCandidates`: the for-loop with `continue` over the ways is
the `filterMap` of `processWay`. -/
noncomputable def preprocessRouteCandidates (ways : List OSMWay)
    (nodes : List (ℕ × (ℚ × ℚ))) (center : ℚ × ℚ) : List RouteCandidate :=
  ways.filterMap (processWay nodes center)

/-- The creativity profiles of `src/types.ts`. -/
inductive CreativityLevel
  | strict
  | balanced
  | creative
deriving DecidableEq, Repr

/-- The `minSimilarity` table of `smartFilterAndRank`. -/
def minSimilarityFor : CreativityLevel → ℚ
  | .strict => 6 / 10
  | .balanced => 4 / 10
  | .creative => 1 / 4

/-- The ranking key of `smartFilterAndRank`:
`similarity * 0.7 + confidence * 0.3`. -/
def combinedScore (c : RouteCandidate) : ℚ :=
  c.similarity * (7 / 10) + c.confidence * (3 / 10)

/-- The filter-sort-truncate stage of `smartFilterAndRank`: keep candidates
with `similarity ≥ minSimilarity` and `confidence ≥ MIN_CONFIDENCE = 0.3`,
stable-sort descending by the combined score (the source's
`sort((a, b) => scoreB - scoreA)` — JavaScript's `Array.prototype.sort` is
stable, as is `List.mergeSort`; an element precedes another exactly when its
comparator result is `≤ 0`, i.e. when the other's score is `≤` its own), and
keep at most `MAX_ROUTES = 5`. -/
def rankedCandidates (cands : List RouteCandidate) (creativity : CreativityLevel) :
    List RouteCandidate :=
  ((cands.filter fun c =>
      decide (minSimilarityFor creativity ≤ c.similarity) &&
        decide ((3 / 10 : ℚ) ≤ c.confidence)).mergeSort
    fun a b => decide (combinedScore b ≤ combinedScore a)).take 5

/-- JavaScript `Math.round` on reals: `⌊x + 1/2⌋` (halves round up). -/
noncomputable def jsRound (x : ℝ) : ℝ := (⌊x + 1 / 2⌋ : ℤ)

/-- `generateEnhancedRouteName`: a confidence marker, the way's name or
highway tag (or a numbered default), truncated to 35 characters. -/
def generateEnhancedRouteName (way : OSMWay) (idx : ℕ) (confidence : ℚ) : String :=
  let baseName := ((way.tags.lookup "name").orElse fun _ => way.tags.lookup "highway").getD
    ("مسیر " ++ toString (idx + 1))
  let indicator : String :=
    if (7 / 10 : ℚ) < confidence then "⭐" else if (1 / 2 : ℚ) < confidence then "✓" else "~"
  (indicator ++ " " ++ baseName).take 35

/-- The Route formatting of `smartFilterAndRank`: rounded numeric fields
(distance to 2 decimals, similarity to 2 decimals, duration to an integer). -/
noncomputable def toRoute (idx : ℕ) (c : RouteCandidate) : Fallback.Route :=
  { routeName := generateEnhancedRouteName c.way idx c.confidence
    distance := jsRound (c.distance * 100) / 100
    duration := jsRound c.duration
    similarityScore := ((⌊c.similarity * 100 + 1 / 2⌋ : ℤ) : ℝ) / 100
    path := c.path.map fun p => ((p.1 : ℝ), (p.2 : ℝ)) }

/-- `smartFilterAndRank` of `improvedOfflineRouteService.ts`: rank, then
format each surviving candidate with its post-sort index. -/
noncomputable def smartFilterAndRank (cands : List RouteCandidate)
    (creativity : CreativityLevel) : List Fallback.Route :=
  (rankedCandidates cands creativity).enum.map fun ic => toRoute ic.1 ic.2

end Improved

/-- Width of the axis-aligned bounding box of a point list (`maxX - minX`);
used to state the normalization properties. -/
def xSpan (pts : List Pt) : ℚ :=
  listMax (pts.map (·.x)) - listMin (pts.map (·.x))

/-- Height of the axis-aligned bounding box of a point list (`maxY - minY`). -/
def ySpan (pts : List Pt) : ℚ :=
  listMax (pts.map (·.y)) - listMin (pts.map (·.y))

/-- A `Route` with its `similarityScore` erased: the projection under which
the fallback route list is independent of the `Math.random()` stream. -/
noncomputable def Fallback.Route.withoutScore (r : Fallback.Route) :
    String × ℝ × ℝ × List (ℝ × ℝ) :=
  (r.routeName, r.distance, r.duration, r.path)


/-! ## Later stages of the offline matcher: path normalization and the
remaining per-metric similarities of `calculateAdvancedSimilarity` -/

namespace Offline

/-- `normalizePathCoordinates` of `offlineRouteService.ts`: per-axis min/max
normalization of a candidate path into the unit square; the JS guards
`maxLat - minLat || 1` / `maxLon - minLon || 1` replace a zero span by `1`.
`calculateAdvancedSimilarity` applies this to every candidate path before any
per-metric comparison (line 215 of the source). -/
def normalizePathCoordinates (path : List (ℚ × ℚ)) : List (ℚ × ℚ) :=
  if path.length = 0 then []
  else
    let lats := path.map (·.1)
    let lons := path.map (·.2)
    let minLat := listMin lats
    let maxLat := listMax lats
    let minLon := listMin lons
    let maxLon := listMax lons
    let latRange := if maxLat - minLat = 0 then 1 else maxLat - minLat
    let lonRange := if maxLon - minLon = 0 then 1 else maxLon - minLon
    path.map fun pt => ((pt.1 - minLat) / latRange, (pt.2 - minLon) / lonRange)

/-- `directedHausdorffDistance` of `offlineRouteService.ts`: the JS
`minDistance` accumulator starts at `Infinity` (here `⊤`) and
`maxMinDistance` at `0`. -/
noncomputable def directedHausdorffDistance (setA setB : List (ℚ × ℚ)) : WithTop ℝ :=
  setA.foldl
    (fun acc pa =>
      max acc (setB.foldl (fun m pb => min m (euclideanDistance pa pb : WithTop ℝ)) ⊤))
    0

/-- `calculateHausdorffSimilarity`: `exp(-hausdorffDistance * 10)`; the `⊤`
case renders JavaScriptʼs `exp(-Infinity) = 0` (only reachable on an empty
point set). -/
noncomputable def calculateHausdorffSimilarity (shape route : List (ℚ × ℚ)) : ℝ :=
  let h := max (directedHausdorffDistance shape route) (directedHausdorffDistance route shape)
  if h = ⊤ then 0 else Real.exp (-(h.untop' 0) * 10)

/-- `computeFourierDescriptors` of `offlineRouteService.ts`: the magnitudes
of the first `min(8, n)` discrete-Fourier harmonics of the path, each divided
by `n`. -/
noncomputable def computeFourierDescriptors (path : List (ℚ × ℚ)) : List ℝ :=
  let n := path.length
  (List.range (min 8 n)).map fun (k : ℕ) =>
    let real := ((List.range n).map fun (i : ℕ) =>
      ((path.getD i (0, 0)).1 : ℝ) * Real.cos (-(2 * Real.pi * (k : ℝ) * (i : ℝ)) / n) -
        ((path.getD i (0, 0)).2 : ℝ) * Real.sin (-(2 * Real.pi * (k : ℝ) * (i : ℝ)) / n)).sum
    let imag := ((List.range n).map fun (i : ℕ) =>
      ((path.getD i (0, 0)).1 : ℝ) * Real.sin (-(2 * Real.pi * (k : ℝ) * (i : ℝ)) / n) +
        ((path.getD i (0, 0)).2 : ℝ) * Real.cos (-(2 * Real.pi * (k : ℝ) * (i : ℝ)) / n)).sum
    Real.sqrt (real * real + imag * imag) / n

/-- `calculateFourierSimilarity`: the source accumulates
`exp(-|sig1[i] - sig2[i]|)` for `i < minLength` and divides by `minLength`
(the common prefix of the two descriptor lists, here their `zip`). -/
noncomputable def calculateFourierSimilarity (shape route : List (ℚ × ℚ)) : ℝ :=
  let s1 := computeFourierDescriptors shape
  let s2 := computeFourierDescriptors route
  let minLength := min s1.length s2.length
  (((s1.zip s2).map fun ab => Real.exp (-|ab.1 - ab.2|)).sum) / (minLength : ℝ)

end Offline

/-- JavaScriptʼs `Math.max(0, Math.min(1, x))`: the clamp that
`calculateAdvancedSimilarity` (offline) and `performAdvancedMatching`
(improved) apply to the combined similarity and to the confidence. -/
noncomputable def clamp01 (x : ℝ) : ℝ := max 0 (min 1 x)

namespace Offline

/-- The per-candidate body of `calculateAdvancedSimilarity` of
`offlineRouteService.ts` (lines 212–262): normalize the candidate path,
compute the four per-metric scores against the drawingʼs scalar features `sf`
and its normalized path `normalizedShape` (the output of the string
round-trip `convertShapeToPath`, abstracted here as an argument), combine
them with the creativity weights and clamp to `[0, 1]`. -/
noncomputable def advancedSimilarityOf (creativity : Improved.CreativityLevel)
    (sf : GeomFeatures) (normalizedShape candPath : List (ℚ × ℚ)) : ℝ :=
  let normalizedRoute := normalizePathCoordinates candPath
  let dtwSimilarity := calculateDTWSimilarity normalizedShape normalizedRoute
  let hausdorffSimilarity := calculateHausdorffSimilarity normalizedShape normalizedRoute
  let fourierSimilarity := calculateFourierSimilarity normalizedShape normalizedRoute
  let geometricSimilarity := calculateGeometricSimilarity sf normalizedRoute
  clamp01 (match creativity with
    | .strict => dtwSimilarity * (4 / 10) + hausdorffSimilarity * (3 / 10) +
        fourierSimilarity * (2 / 10) + geometricSimilarity * (1 / 10)
    | .balanced => dtwSimilarity * (3 / 10) + hausdorffSimilarity * (25 / 100) +
        fourierSimilarity * (25 / 100) + geometricSimilarity * (2 / 10)
    | .creative => dtwSimilarity * (2 / 10) + hausdorffSimilarity * (2 / 10) +
        fourierSimilarity * (3 / 10) + geometricSimilarity * (3 / 10))

/-- The `similarityScore` of each `Route` built by `filterAndRankRoutes`:
`Math.round(candidate.similarity * 100) / 100`. -/
noncomputable def roundedSimilarityScore (s : ℝ) : ℝ :=
  Improved.jsRound (s * 100) / 100

end Offline

/-! ## Supporting lemmas: DTW -/

namespace Offline

theorem euclideanDistance_nonneg (p q : ℚ × ℚ) : 0 ≤ euclideanDistance p q :=
  Real.sqrt_nonneg _

theorem euclideanDistance_self (p : ℚ × ℚ) : euclideanDistance p p = 0 := by
  simp [euclideanDistance]

theorem dtwMat_nonneg (A B : List (ℚ × ℚ)) : ∀ i j, 0 ≤ dtwMat A B i j := by
  intro i
  induction i with
  | zero =>
    intro j
    cases j with
    | zero => simp [dtwMat]
    | succ j => simp [dtwMat]
  | succ i ih =>
    intro j
    induction j with
    | zero => simp [dtwMat]
    | succ j ihj =>
      rw [dtwMat]
      have hd : (0 : WithTop ℝ) ≤
          (euclideanDistance (A.getD i (0, 0)) (B.getD j (0, 0)) : WithTop ℝ) := by
        exact_mod_cast euclideanDistance_nonneg _ _
      exact add_nonneg hd (le_min (le_min (ih (j + 1)) ihj) (ih j))

theorem dtwMat_self_diag (A : List (ℚ × ℚ)) : ∀ k, dtwMat A A k k = 0 := by
  intro k
  induction k with
  | zero => simp [dtwMat]
  | succ k ih =>
    rw [dtwMat, euclideanDistance_self, ih]
    rw [min_eq_right (le_min (dtwMat_nonneg A A k (k + 1)) (dtwMat_nonneg A A (k + 1) k))]
    simp

end Offline

/-- C8: DTW similarity of a non-empty normalized path against an identical
copy of itself equals `1.0`: the diagonal of the cumulative-cost matrix built
from `cost[i][j] = d(i,j) + min(cost[i-1][j], cost[i][j-1], cost[i-1][j-1])`
is zero (the local Euclidean cost `d(i,i)` vanishes and every entry is
non-negative), so the final cost is `0` and
`similarity = exp(-0 / max(n, n)) = 1`. -/
theorem C8_dtw_self_similarity (P : List (ℚ × ℚ)) (_hP : P ≠ []) :
    Offline.calculateDTWSimilarity P P = 1 := by
  unfold Offline.calculateDTWSimilarity
  rw [Offline.dtwMat_self_diag P P.length]
  have h0 : ((0 : WithTop ℝ) = ⊤) = False := by
    simp
  rw [if_neg (by simp)]
  have : (0 : WithTop ℝ).untop' 0 = 0 := by
    simp
  rw [this]
  simp

/-- Witness for C8 at the one-point path `[(0, 0)]`. -/
theorem C8_dtw_self_similarity_witness :
    Offline.calculateDTWSimilarity [((0 : ℚ), (0 : ℚ))] [((0 : ℚ), (0 : ℚ))] = 1 :=
  C8_dtw_self_similarity [((0 : ℚ), (0 : ℚ))] (by simp)

/-- C6 (amended): the service `analyzeShape` returns a `ShapeFeatures` record
exactly when the flattened drawing has at least 3 points and both bounding-box
dimensions are at least the 1-pixel minimum; it returns `null` (here `none`)
otherwise.  (The legacy analyzer variant does not satisfy this —
see `C6_counterexample`.) -/
theorem C6_analyzeShape_success_iff (d : List (List Pt)) :
    (Svc.analyzeShape d).isSome = true ↔
      3 ≤ d.flatten.length ∧ 1 ≤ Svc.widthOf d ∧ 1 ≤ Svc.heightOf d := by
  simp only [Svc.analyzeShape]
  split_ifs with h1 h2
  · simp only [Option.isSome_none, Bool.false_eq_true, false_iff]
    intro ⟨h3, _⟩
    omega
  · simp only [Option.isSome_none, Bool.false_eq_true, false_iff]
    intro ⟨_, hw1, hh1⟩
    rcases h2 with hw | hh
    · exact absurd hw1 (by simpa [Svc.widthOf, Svc.maxXOf, Svc.minXOf] using not_le.mpr hw)
    · exact absurd hh1 (by simpa [Svc.heightOf, Svc.maxYOf, Svc.minYOf] using not_le.mpr hh)
  · push_neg at h2
    simp only [Option.isSome_some, true_iff]
    refine ⟨by omega, ?_, ?_⟩
    · simpa [Svc.widthOf, Svc.maxXOf, Svc.minXOf] using h2.1
    · simpa [Svc.heightOf, Svc.maxYOf, Svc.minYOf] using h2.2

/-- Counterexample to C6 as stated: the legacy `analyzeShape` variant
(concatenated into `offlineRouteService.ts`, one of the claim's cited
sources) succeeds on a 2-point drawing with a degenerate (zero-height)
bounding box, although the claim requires failure for every drawing with
fewer than 3 points or a degenerate box. -/
theorem C6_counterexample :
    (Legacy.analyzeShape [[⟨0, 0⟩, ⟨1, 0⟩]]).isSome = true ∧
      [[(⟨0, 0⟩ : Pt), ⟨1, 0⟩]].flatten.length < 3 ∧
      ySpan [[(⟨0, 0⟩ : Pt), ⟨1, 0⟩]].flatten = 0 := by
  refine ⟨?_, by simp [List.flatten], ?_⟩
  · simp [Legacy.analyzeShape, List.flatten]
  · norm_num [ySpan, listMin, listMax, List.flatten]

/-- C4 (amended): for every drawing the service `analyzeShape` accepts,
`isClosed` is true iff the start-to-end distance is *strictly* below
`0.15 · min(width, height)` — stated on squares, which is equivalent since
both sides are non-negative (`width, height ≥ 1` behind the guard).  The
claim's "at most" (`≤`) fails exactly on the boundary; see
`C4_counterexample`. -/
theorem C4_isClosed_iff (d : List (List Pt)) (f : Svc.FeaturesQ)
    (h : Svc.analyzeShape d = some f) :
    f.isClosed = true ↔
      dist2 (Svc.startPt d) (Svc.endPt d) < (min f.width f.height * (15 / 100)) ^ 2 := by
  simp only [Svc.analyzeShape] at h
  split_ifs at h
  obtain rfl := (Option.some.inj h).symm
  simp [decide_eq_true_iff]

/-- Witness for C4 at a closed square-ish stroke. -/
theorem C4_isClosed_iff_witness :
    ∃ f, Svc.analyzeShape [[⟨0, 0⟩, ⟨100, 0⟩, ⟨100, 100⟩, ⟨0, 100⟩, ⟨2, 2⟩]] = some f ∧
      (f.isClosed = true ↔
        dist2 (Svc.startPt [[⟨0, 0⟩, ⟨100, 0⟩, ⟨100, 100⟩, ⟨0, 100⟩, ⟨2, 2⟩]])
            (Svc.endPt [[⟨0, 0⟩, ⟨100, 0⟩, ⟨100, 100⟩, ⟨0, 100⟩, ⟨2, 2⟩]]) <
          (min f.width f.height * (15 / 100)) ^ 2) := by
  have h : Svc.analyzeShape [[⟨0, 0⟩, ⟨100, 0⟩, ⟨100, 100⟩, ⟨0, 100⟩, ⟨2, 2⟩]] =
      some { width := 100, height := 100, aspectRatio := 1,
             normPts := [[⟨0, 0⟩, ⟨1, 0⟩, ⟨1, 1⟩, ⟨0, 1⟩, ⟨1 / 50, 1 / 50⟩]],
             startPt := ⟨0, 0⟩, endPt := ⟨2, 2⟩, isClosed := true } := by
    norm_num [Svc.analyzeShape, listMin, listMax, Svc.startPt, Svc.endPt,
      Svc.normalizedDrawing, dist2, List.flatten, decide_eq_true_iff]
  exact ⟨_, h, C4_isClosed_iff _ _ h⟩

/-- Counterexample to C4 as stated: a drawing whose start-to-end distance
equals `0.15 · min(width, height)` exactly (distance 3, threshold 3).  The
claim's "at most tolerance times the smaller dimension" predicts
`isClosed = true` here, but the source's strict `<` yields `false`. -/
theorem C4_counterexample :
    ∃ f, Svc.analyzeShape [[⟨0, 0⟩, ⟨20, 20⟩, ⟨0, 20⟩, ⟨20, 0⟩, ⟨3, 0⟩]] = some f ∧
      f.isClosed = false ∧
      dist2 (Svc.startPt [[⟨0, 0⟩, ⟨20, 20⟩, ⟨0, 20⟩, ⟨20, 0⟩, ⟨3, 0⟩]])
          (Svc.endPt [[⟨0, 0⟩, ⟨20, 20⟩, ⟨0, 20⟩, ⟨20, 0⟩, ⟨3, 0⟩]]) =
        (min f.width f.height * (15 / 100)) ^ 2 := by
  refine ⟨{ width := 20, height := 20, aspectRatio := 1,
            normPts := [[⟨0, 0⟩, ⟨1, 1⟩, ⟨0, 1⟩, ⟨1, 0⟩, ⟨3 / 20, 0⟩]],
            startPt := ⟨0, 0⟩, endPt := ⟨3, 0⟩, isClosed := false }, ?_, rfl, ?_⟩
  · norm_num [Svc.analyzeShape, listMin, listMax, Svc.startPt, Svc.endPt,
      Svc.normalizedDrawing, dist2, List.flatten, decide_eq_false_iff_not]
  · norm_num [dist2, Svc.startPt, Svc.endPt]

/-- C2 (amended): `findBasicRoutes` returns a non-empty route list exactly
when shape analysis fails (two dummy routes) or the Overpass response carries
at least one way (up to three simple routes); when shape analysis succeeds and
the response is an error or holds no ways, the result is empty — contrary to
the claim's "always at least one Route" (see `C2_counterexample`). -/
theorem C2_findBasicRoutes_nonempty_iff (d : List (List Pt))
    (resp : Except Unit (List Fallback.Way)) (mode : TransportationMode)
    (rand : ℕ → ℚ) :
    1 ≤ (Fallback.findBasicRoutes d resp mode rand).length ↔
      ((Svc.analyzeShape d).isSome = false ∨ ∃ ways, resp = .ok ways ∧ ways ≠ []) := by
  unfold Fallback.findBasicRoutes
  by_cases hs : (Svc.analyzeShape d).isSome
  · rw [if_pos hs]
    cases resp with
    | error e =>
      simp [Fallback.getSimpleRoutes, hs]
    | ok ways =>
      simp only [Fallback.getSimpleRoutes, List.length_map, List.enum_length,
        List.length_take, hs, Bool.true_eq_false, false_or]
      constructor
      · intro hlen
        refine ⟨ways, rfl, ?_⟩
        intro hnil
        subst hnil
        simp at hlen
      · rintro ⟨ways', heq, hne⟩
        obtain rfl := (Except.ok.inj heq)
        have : 1 ≤ ways.length := List.length_pos.mpr hne
        omega
  · rw [if_neg hs]
    simp [Fallback.generateDummyRoutes, hs]

/-- Counterexample to C2 as stated: a well-formed drawing (shape analysis
succeeds) with an Overpass response that succeeds but carries zero ways: the
fallback returns the empty list, not "at least one Route". -/
theorem C2_counterexample :
    Fallback.findBasicRoutes [[⟨0, 0⟩, ⟨4, 0⟩, ⟨4, 2⟩]] (.ok []) .walking
      (fun _ => 0) = [] := by
  rw [Fallback.findBasicRoutes, if_pos]
  · simp [Fallback.getSimpleRoutes]
  · norm_num [Svc.analyzeShape, listMin, listMax, List.flatten]

/-- C3 (amended): everything about the fallback's simple routes except the
`similarityScore` — the list length, order, names, distances, durations and
paths — is a pure function of the inputs: it does not depend on the
`Math.random()` stream.  The `similarityScore` itself does (see
`C3_counterexample`), so two runs on identical inputs need not agree on it. -/
theorem C3_getSimpleRoutes_deterministic_without_score
    (resp : Except Unit (List Fallback.Way)) (mode : TransportationMode)
    (r1 r2 : ℕ → ℚ) :
    (Fallback.getSimpleRoutes resp mode r1).map Fallback.Route.withoutScore =
      (Fallback.getSimpleRoutes resp mode r2).map Fallback.Route.withoutScore := by
  cases resp with
  | error e => rfl
  | ok ways =>
    simp only [Fallback.getSimpleRoutes, List.map_map]
    rfl

/-- Counterexample to C3 as stated: one way, two runs that differ only in the
ambient `Math.random()` draws (`0` versus `1/2`): the returned route lists
differ (`similarityScore` 0.3 versus 0.45), so identical inputs do not always
yield identical numeric fields. -/
theorem C3_counterexample :
    Fallback.getSimpleRoutes (.ok [⟨some [(0, 0), (0, 1)]⟩]) .walking (fun _ => 0) ≠
      Fallback.getSimpleRoutes (.ok [⟨some [(0, 0), (0, 1)]⟩]) .walking
        (fun _ => 1 / 2) := by
  intro h
  have hs := congrArg (fun l => (l.map Fallback.Route.similarityScore).headD 0) h
  simp only [Fallback.getSimpleRoutes, List.take, List.enum, Fallback.Route.withoutScore,
    List.map, List.headD] at hs
  norm_num at hs

/-! ## Supporting lemmas: list extrema under affine maps -/

theorem foldl_max_map (f : ℚ → ℚ) (hf : ∀ a b, f (max a b) = max (f a) (f b)) :
    ∀ (l : List ℚ) (a : ℚ), (l.map f).foldl max (f a) = f (l.foldl max a)
  | [], _ => rfl
  | x :: xs, a => by
    simp only [List.map, List.foldl]
    rw [← hf, foldl_max_map f hf xs (max a x)]

theorem foldl_min_map (f : ℚ → ℚ) (hf : ∀ a b, f (min a b) = min (f a) (f b)) :
    ∀ (l : List ℚ) (a : ℚ), (l.map f).foldl min (f a) = f (l.foldl min a)
  | [], _ => rfl
  | x :: xs, a => by
    simp only [List.map, List.foldl]
    rw [← hf, foldl_min_map f hf xs (min a x)]

theorem listMax_map_affine (l : List ℚ) (hl : l ≠ []) (c s : ℚ) (hs : 0 < s) :
    listMax (l.map fun x => (x - c) / s) = (listMax l - c) / s := by
  have hf : ∀ a b : ℚ, (max a b - c) / s = max ((a - c) / s) ((b - c) / s) := by
    intro a b
    rw [← max_sub_sub_right a b c, ← max_div_div_right hs.le]
  cases l with
  | nil => exact absurd rfl hl
  | cons x xs =>
    simp only [List.map, listMax]
    exact foldl_max_map (fun x => (x - c) / s) (fun a b => hf a b) xs x

theorem listMin_map_affine (l : List ℚ) (hl : l ≠ []) (c s : ℚ) (hs : 0 < s) :
    listMin (l.map fun x => (x - c) / s) = (listMin l - c) / s := by
  have hf : ∀ a b : ℚ, (min a b - c) / s = min ((a - c) / s) ((b - c) / s) := by
    intro a b
    rw [← min_sub_sub_right a b c, ← min_div_div_right hs.le]
  cases l with
  | nil => exact absurd rfl hl
  | cons x xs =>
    simp only [List.map, listMin]
    exact foldl_min_map (fun x => (x - c) / s) (fun a b => hf a b) xs x

theorem xSpan_map_scale (pts : List Pt) (hne : pts ≠ []) (cx cy s : ℚ) (hs : 0 < s) :
    xSpan (pts.map fun p => (⟨(p.x - cx) / s, (p.y - cy) / s⟩ : Pt)) = xSpan pts / s := by
  have hmap : (pts.map fun p => (⟨(p.x - cx) / s, (p.y - cy) / s⟩ : Pt)).map (·.x) =
      (pts.map (·.x)).map fun x => (x - cx) / s := by
    simp [List.map_map]
  have hnex : pts.map (·.x) ≠ [] := by
    simpa using hne
  unfold xSpan
  rw [hmap, listMax_map_affine _ hnex _ _ hs, listMin_map_affine _ hnex _ _ hs,
    div_sub_div_same]
  ring_nf

theorem ySpan_map_scale (pts : List Pt) (hne : pts ≠ []) (cx cy s : ℚ) (hs : 0 < s) :
    ySpan (pts.map fun p => (⟨(p.x - cx) / s, (p.y - cy) / s⟩ : Pt)) = ySpan pts / s := by
  have hmap : (pts.map fun p => (⟨(p.x - cx) / s, (p.y - cy) / s⟩ : Pt)).map (·.y) =
      (pts.map (·.y)).map fun y => (y - cy) / s := by
    simp [List.map_map]
  have hney : pts.map (·.y) ≠ [] := by
    simpa using hne
  unfold ySpan
  rw [hmap, listMax_map_affine _ hney _ _ hs, listMin_map_affine _ hney _ _ hs,
    div_sub_div_same]
  ring_nf

/-- C1 (amended, for the utility normalizer): `normalizePoints` of
`src/utils/shapeAnalysis.ts` translates every point to the bounding-box origin
and divides both coordinates by the single scale `max(width, height)`; the
normalized spans are `width / scale` and `height / scale`, so the longer
dimension maps exactly to `1.0` and the aspect ratio is preserved.  The claim
fails for the cited *service* analyzer, which scales per-axis
(`C1_counterexample`). -/
theorem C1_normalizePoints_uniform (pts : List Pt) (hne : pts ≠ [])
    (hw : 0 < xSpan pts) (hh : 0 < ySpan pts) :
    (Utils.normalizePoints pts).1 =
        (pts.map fun p =>
          (⟨(p.x - listMin (pts.map (·.x))) / max (xSpan pts) (ySpan pts),
            (p.y - listMin (pts.map (·.y))) / max (xSpan pts) (ySpan pts)⟩ : Pt)) ∧
      (Utils.normalizePoints pts).2 = xSpan pts / ySpan pts ∧
      xSpan (Utils.normalizePoints pts).1 = xSpan pts / max (xSpan pts) (ySpan pts) ∧
      ySpan (Utils.normalizePoints pts).1 = ySpan pts / max (xSpan pts) (ySpan pts) ∧
      max (xSpan (Utils.normalizePoints pts).1) (ySpan (Utils.normalizePoints pts).1)
        = 1 := by
  have hxs : ¬ listMax (pts.map (·.x)) - listMin (pts.map (·.x)) = 0 := by
    simpa [xSpan] using ne_of_gt hw
  have hys : ¬ listMax (pts.map (·.y)) - listMin (pts.map (·.y)) = 0 := by
    simpa [ySpan] using ne_of_gt hh
  have hscale : 0 < max (xSpan pts) (ySpan pts) := lt_max_of_lt_left hw
  have h1 : (Utils.normalizePoints pts).1 =
      pts.map fun p =>
        (⟨(p.x - listMin (pts.map (·.x))) / max (xSpan pts) (ySpan pts),
          (p.y - listMin (pts.map (·.y))) / max (xSpan pts) (ySpan pts)⟩ : Pt) := by
    simp only [Utils.normalizePoints, if_neg hne, if_neg hxs, if_neg hys, xSpan, ySpan]
  have h2 : (Utils.normalizePoints pts).2 = xSpan pts / ySpan pts := by
    simp only [Utils.normalizePoints, if_neg hne, if_neg hxs, if_neg hys, xSpan, ySpan]
  have h3 : xSpan (Utils.normalizePoints pts).1 =
      xSpan pts / max (xSpan pts) (ySpan pts) := by
    rw [h1]
    exact xSpan_map_scale pts hne _ _ _ hscale
  have h4 : ySpan (Utils.normalizePoints pts).1 =
      ySpan pts / max (xSpan pts) (ySpan pts) := by
    rw [h1]
    exact ySpan_map_scale pts hne _ _ _ hscale
  refine ⟨h1, h2, h3, h4, ?_⟩
  rw [h3, h4, max_div_div_right hscale.le, div_self (ne_of_gt hscale)]

/-- Witness for C1 on the two-point list `[(0,0), (4,2)]`: the scale is the
larger span `4`, giving `[(0,0), (1, 1/2)]`, whose longer normalized span
is `1`. -/
theorem C1_normalizePoints_uniform_witness :
    (Utils.normalizePoints [(⟨0, 0⟩ : Pt), ⟨4, 2⟩]).1 = [⟨0, 0⟩, ⟨1, 1 / 2⟩] ∧
      max (xSpan (Utils.normalizePoints [(⟨0, 0⟩ : Pt), ⟨4, 2⟩]).1)
        (ySpan (Utils.normalizePoints [(⟨0, 0⟩ : Pt), ⟨4, 2⟩]).1) = 1 := by
  obtain ⟨h1, _, _, _, h5⟩ := C1_normalizePoints_uniform [⟨0, 0⟩, ⟨4, 2⟩] (by simp)
    (by norm_num [xSpan, listMin, listMax]) (by norm_num [ySpan, listMin, listMax])
  refine ⟨?_, h5⟩
  rw [h1]
  norm_num [xSpan, ySpan, listMin, listMax]

/-- Counterexample to C1 as stated: the cited service analyzer normalizes the
drawing `[[(0,0), (4,0), (4,2)]]` (whose bounding-box minimum is the origin)
to `[[(0,0), (1,0), (1,1)]]`, and *no* single divisor `s` applied to both
coordinates produces that output — the x-coordinates were divided by 4 and
the y-coordinates by 2, so the scaling is per-axis and the aspect ratio is
not preserved. -/
theorem C1_counterexample :
    ∃ f, Svc.analyzeShape [[⟨0, 0⟩, ⟨4, 0⟩, ⟨4, 2⟩]] = some f ∧
      f.normPts = [[⟨0, 0⟩, ⟨1, 0⟩, ⟨1, 1⟩]] ∧
      ¬ ∃ s : ℚ, [[(⟨0, 0⟩ : Pt), ⟨1, 0⟩, ⟨1, 1⟩]] =
          [[(⟨0, 0⟩ : Pt), ⟨4, 0⟩, ⟨4, 2⟩]].map fun stroke =>
            stroke.map fun p => (⟨p.x / s, p.y / s⟩ : Pt) := by
  refine ⟨{ width := 4, height := 2, aspectRatio := 2,
            normPts := [[⟨0, 0⟩, ⟨1, 0⟩, ⟨1, 1⟩]],
            startPt := ⟨0, 0⟩, endPt := ⟨4, 2⟩, isClosed := false }, ?_, rfl, ?_⟩
  · norm_num [Svc.analyzeShape, listMin, listMax, Svc.startPt, Svc.endPt,
      Svc.normalizedDrawing, dist2, List.flatten, decide_eq_false_iff_not]
  · rintro ⟨s, hs⟩
    have h4 := congrArg (fun ll : List (List Pt) => ((ll.headD []).getD 1 ⟨0, 0⟩).x) hs
    have h2 := congrArg (fun ll : List (List Pt) => ((ll.headD []).getD 2 ⟨0, 0⟩).y) hs
    simp [List.getD] at h4 h2
    have hs0 : s ≠ 0 := by
      intro h0
      rw [h0] at h4
      norm_num at h4
    field_simp at h4 h2
    rw [h4] at h2
    norm_num at h2

/-- C7: `smartFilterAndRank` keeps the candidates that pass the similarity and
confidence floors, stable-sorts them in descending order of
`0.7 · similarity + 0.3 · confidence`, truncates to at most 5, and formats the
result: the output length is at most 5; the ranked list is a prefix of a
stable sort of the filtered candidates — a permutation of them, pairwise
descending in the combined score, in which any two candidates appearing in
their original filtered order with the earlier one's score at least the later
one's (ties included) keep that order. -/
theorem C7_smartFilterAndRank_ranking (cands : List Improved.RouteCandidate)
    (creativity : Improved.CreativityLevel) :
    (Improved.smartFilterAndRank cands creativity).length ≤ 5 ∧
      ∃ sorted : List Improved.RouteCandidate,
        Improved.rankedCandidates cands creativity = sorted.take 5 ∧
        sorted.Perm (cands.filter fun c =>
          decide (Improved.minSimilarityFor creativity ≤ c.similarity) &&
            decide ((3 / 10 : ℚ) ≤ c.confidence)) ∧
        sorted.Pairwise
          (fun a b => Improved.combinedScore b ≤ Improved.combinedScore a) ∧
        (∀ a b, [a, b].Sublist (cands.filter fun c =>
            decide (Improved.minSimilarityFor creativity ≤ c.similarity) &&
              decide ((3 / 10 : ℚ) ≤ c.confidence)) →
          Improved.combinedScore b ≤ Improved.combinedScore a →
          [a, b].Sublist sorted) ∧
        Improved.smartFilterAndRank cands creativity =
          (Improved.rankedCandidates cands creativity).enum.map fun ic =>
            Improved.toRoute ic.1 ic.2 := by
  have htrans : ∀ a b c : Improved.RouteCandidate,
      (fun a b => decide (Improved.combinedScore b ≤ Improved.combinedScore a)) a b →
      (fun a b => decide (Improved.combinedScore b ≤ Improved.combinedScore a)) b c →
      (fun a b => decide (Improved.combinedScore b ≤ Improved.combinedScore a)) a c := by
    intro a b c hab hbc
    simp only [decide_eq_true_iff] at hab hbc ⊢
    exact hbc.trans hab
  have htotal : ∀ a b : Improved.RouteCandidate,
      ((fun a b => decide (Improved.combinedScore b ≤ Improved.combinedScore a)) a b ||
        (fun a b => decide (Improved.combinedScore b ≤ Improved.combinedScore a)) b a)
        = true := by
    intro a b
    simpa using le_total (Improved.combinedScore b) (Improved.combinedScore a)
  constructor
  · have : (Improved.smartFilterAndRank cands creativity).length =
        (Improved.rankedCandidates cands creativity).length := by
      simp [Improved.smartFilterAndRank]
    rw [this, Improved.rankedCandidates]
    simp [List.length_take_le]
  · refine ⟨_, rfl, List.mergeSort_perm _ _, ?_, ?_, rfl⟩
    · exact (List.sorted_mergeSort htrans htotal _).imp fun h => by
        simpa using h
    · intro a b hsub hba
      exact List.sublist_mergeSort htrans htotal
        (by simp [List.pairwise_cons, hba]) hsub

/-! ## Supporting lemmas: Douglas-Peucker simplification -/

theorem map_getD_sublist {α : Type} (d : α) :
    ∀ (l : List α) (idxs : List ℕ), idxs.Pairwise (· < ·) →
      (∀ i ∈ idxs, i < l.length) → (idxs.map fun i => l.getD i d).Sublist l := by
  intro l
  induction l with
  | nil =>
    intro idxs _ hb
    cases idxs with
    | nil => simp
    | cons i is => exact absurd (hb i (by simp)) (by simp)
  | cons p rest ih =>
    intro idxs hpw hb
    cases idxs with
    | nil => simp
    | cons i is =>
      by_cases hi : i = 0
      · subst hi
        have his1 : ∀ j ∈ is, 1 ≤ j := by
          intro j hj
          have := (List.pairwise_cons.mp hpw).1 j hj
          omega
        have hmap : is.map (fun j => (p :: rest).getD j d) =
            (is.map fun j => j - 1).map fun j => rest.getD j d := by
          rw [List.map_map]
          refine List.map_congr_left ?_
          intro j hj
          have h1 := his1 j hj
          obtain ⟨k, rfl⟩ : ∃ k, j = k + 1 := ⟨j - 1, by omega⟩
          simp
        have hpw' : (is.map fun j => j - 1).Pairwise (· < ·) := by
          rw [List.pairwise_map]
          refine ((List.pairwise_cons.mp hpw).2).imp_of_mem ?_
          intro a b ha _ hab
          have := his1 a ha
          omega
        have hb' : ∀ j ∈ is.map fun j => j - 1, j < rest.length := by
          intro j hj
          obtain ⟨j0, hj0, rfl⟩ := List.mem_map.mp hj
          have h2 := hb j0 (by simp [hj0])
          have h3 := his1 j0 hj0
          simp only [List.length_cons] at h2
          omega
        simp only [List.map_cons, List.getD_cons_zero]
        rw [hmap]
        exact (ih _ hpw' hb').cons₂ p
      · have hall : ∀ j ∈ i :: is, 1 ≤ j := by
          intro j hj
          rcases List.mem_cons.mp hj with rfl | hj'
          · omega
          · have := (List.pairwise_cons.mp hpw).1 j hj'
            omega
        have hmap : (i :: is).map (fun j => (p :: rest).getD j d) =
            ((i :: is).map fun j => j - 1).map fun j => rest.getD j d := by
          rw [List.map_map]
          refine List.map_congr_left ?_
          intro j hj
          have h1 := hall j hj
          obtain ⟨k, rfl⟩ : ∃ k, j = k + 1 := ⟨j - 1, by omega⟩
          simp
        have hpw' : ((i :: is).map fun j => j - 1).Pairwise (· < ·) := by
          rw [List.pairwise_map]
          refine hpw.imp_of_mem ?_
          intro a b ha _ hab
          have := hall a ha
          omega
        have hb2 : ∀ j ∈ (i :: is).map fun j => j - 1, j < rest.length := by
          intro j hj
          obtain ⟨j0, hj0, rfl⟩ := List.mem_map.mp hj
          have h3 := hb j0 hj0
          have h4 := hall j0 hj0
          simp only [List.length_cons] at h3
          omega
        rw [hmap]
        exact (ih _ hpw' hb2).cons p

namespace Utils

theorem foldl_step_cases {f : ℚ × ℕ → ℕ → ℚ × ℕ}
    (hstep : ∀ acc i, f acc i = acc ∨ (f acc i).2 = i) :
    ∀ (l : List ℕ) (acc : ℚ × ℕ), l.foldl f acc = acc ∨ (l.foldl f acc).2 ∈ l := by
  intro l
  induction l with
  | nil => exact fun _ => Or.inl rfl
  | cons i l ih =>
    intro acc
    rcases hstep acc i with he | he
    · rw [List.foldl_cons, he]
      rcases ih acc with h | h
      · exact Or.inl h
      · exact Or.inr (List.mem_cons_of_mem _ h)
    · rw [List.foldl_cons]
      rcases ih (f acc i) with h | h
      · rw [h]
        exact Or.inr (List.mem_cons.mpr (Or.inl he))
      · exact Or.inr (List.mem_cons_of_mem _ h)

theorem dpScan_spec (pts : List Pt) (start en : ℕ) :
    dpScan pts start en = (0, start) ∨
      (start < (dpScan pts start en).2 ∧ (dpScan pts start en).2 < en) := by
  unfold dpScan
  have hstep : ∀ (acc : ℚ × ℕ) (i : ℕ),
      (fun (acc : ℚ × ℕ) i =>
        let d := perpDistSq (pts.getD i ⟨0, 0⟩) (pts.getD start ⟨0, 0⟩)
          (pts.getD en ⟨0, 0⟩)
        if acc.1 < d then (d, i) else acc) acc i = acc ∨
      ((fun (acc : ℚ × ℕ) i =>
        let d := perpDistSq (pts.getD i ⟨0, 0⟩) (pts.getD start ⟨0, 0⟩)
          (pts.getD en ⟨0, 0⟩)
        if acc.1 < d then (d, i) else acc) acc i).2 = i := by
    intro acc i
    dsimp only
    split
    · exact Or.inr rfl
    · exact Or.inl rfl
  rcases foldl_step_cases hstep (List.range' (start + 1) (en - start - 1)) (0, start)
    with h | h
  · exact Or.inl h
  · right
    rw [List.mem_range'_1] at h
    omega

theorem dpFuel_none_of_scan_eq (pts : List Pt) (tol : ℚ) (start en : ℕ)
    (hen : ¬ en ≤ start + 1) (hscan : dpScan pts start en = (0, start))
    (htol : tol < 0) : ∀ fuel, dpFuel pts tol fuel start en = none := by
  intro fuel
  induction fuel with
  | zero => rfl
  | succ fuel ih =>
    simp only [dpFuel, if_neg hen, hscan, if_pos (Or.inl htol), ih, Option.map_none]
    cases dpFuel pts tol fuel start (0, start).2 <;> rfl

theorem dpFuel_isSome (pts : List Pt) (tol : ℚ) (htol : 0 ≤ tol) :
    ∀ (fuel start en : ℕ), en - start < fuel →
      (dpFuel pts tol fuel start en).isSome = true := by
  intro fuel
  induction fuel with
  | zero =>
    intro start en h
    omega
  | succ fuel ih =>
    intro start en h
    by_cases h1 : en ≤ start + 1
    · simp [dpFuel, if_pos h1]
    · by_cases h2 : tol < 0 ∨ tol ^ 2 < (dpScan pts start en).1
      · have h3 : tol ^ 2 < (dpScan pts start en).1 := by
          rcases h2 with h2 | h2
          · exact absurd h2 (not_lt.mpr htol)
          · exact h2
        have hpos : 0 < (dpScan pts start en).1 :=
          lt_of_le_of_lt (sq_nonneg tol) h3
        rcases dpScan_spec pts start en with hs | hs
        · rw [hs] at hpos
          norm_num at hpos
        · obtain ⟨hlo, hhi⟩ := hs
          have hl := ih start (dpScan pts start en).2 (by omega)
          have hr := ih (dpScan pts start en).2 en (by omega)
          obtain ⟨left, hleft⟩ := Option.isSome_iff_exists.mp hl
          obtain ⟨right, hright⟩ := Option.isSome_iff_exists.mp hr
          simp [dpFuel, if_neg h1, if_pos h2, hleft, hright]
      · simp [dpFuel, if_neg h1, if_neg h2]

theorem dpFuel_sorted_bounds (pts : List Pt) (tol : ℚ) :
    ∀ (fuel start en : ℕ) (l : List ℕ), dpFuel pts tol fuel start en = some l →
      l.Pairwise (· < ·) ∧ ∀ i ∈ l, start < i ∧ i < en := by
  intro fuel
  induction fuel with
  | zero =>
    intro start en l h
    exact absurd h (by simp [dpFuel])
  | succ fuel ih =>
    intro start en l h
    by_cases h1 : en ≤ start + 1
    · rw [dpFuel, if_pos h1] at h
      obtain rfl := (Option.some.inj h).symm
      simp
    · by_cases h2 : tol < 0 ∨ tol ^ 2 < (dpScan pts start en).1
      · rcases dpScan_spec pts start en with hs | hs
        · have h3 : tol < 0 := by
            rcases h2 with h2 | h2
            · exact h2
            · rw [hs] at h2
              exact absurd h2 (not_lt.mpr (sq_nonneg tol))
          have hnone := dpFuel_none_of_scan_eq pts tol start en h1 hs h3 (fuel + 1)
          rw [hnone] at h
          cases h
        · obtain ⟨hlo, hhi⟩ := hs
          rw [dpFuel, if_neg h1, if_pos h2] at h
          rw [Option.bind_eq_some] at h
          obtain ⟨left, hL, h⟩ := h
          rw [Option.map_eq_some'] at h
          obtain ⟨right, hR, rfl⟩ := h
          obtain ⟨pwL, bndL⟩ := ih _ _ _ hL
          obtain ⟨pwR, bndR⟩ := ih _ _ _ hR
          constructor
          · rw [List.pairwise_append]
            refine ⟨pwL, ?_, ?_⟩
            · rw [List.pairwise_cons]
              exact ⟨fun y hy => (bndR y hy).1, pwR⟩
            · intro x hx y hy
              have hxm := (bndL x hx).2
              rcases List.mem_cons.mp hy with rfl | hy'
              · exact hxm
              · exact hxm.trans (bndR y hy').1
          · intro i hi
            rcases List.mem_append.mp hi with hi | hi
            · have := bndL i hi
              omega
            · rcases List.mem_cons.mp hi with rfl | hi'
              · omega
              · have := bndR i hi'
                omega
      · rw [dpFuel, if_neg h1, if_neg h2] at h
        obtain rfl := (Option.some.inj h).symm
        simp

theorem simplifyPath_spec (pts : List Pt) (tol : ℚ) (htol : 0 ≤ tol) :
    ∃ l, simplifyPath pts tol = some l ∧ l.Sublist pts ∧
      l.head? = pts.head? ∧ l.getLast? = pts.getLast? := by
  unfold simplifyPath
  by_cases hlen : pts.length ≤ 2
  · exact ⟨pts, by rw [if_pos hlen], List.Sublist.refl pts, rfl, rfl⟩
  · rw [if_neg hlen]
    push_neg at hlen
    have hS := dpFuel_isSome pts tol htol pts.length 0 (pts.length - 1) (by omega)
    obtain ⟨inner, hinner⟩ := Option.isSome_iff_exists.mp hS
    obtain ⟨pwI, bndI⟩ := dpFuel_sorted_bounds pts tol _ _ _ _ hinner
    rw [hinner]
    have hple : (0 :: (inner ++ [pts.length - 1])).Pairwise (· < ·) := by
      rw [List.pairwise_cons]
      constructor
      · intro y hy
        rcases List.mem_append.mp hy with hy | hy
        · exact (bndI y hy).1
        · rcases List.mem_singleton.mp hy with rfl
          omega
      · rw [List.pairwise_append]
        refine ⟨pwI, by simp, ?_⟩
        intro x hx y hy
        rcases List.mem_singleton.mp hy with rfl
        exact (bndI x hx).2
    have hms : (0 :: (inner ++ [pts.length - 1])).mergeSort (fun a b => decide (a ≤ b)) =
        0 :: (inner ++ [pts.length - 1]) := by
      refine List.mergeSort_of_sorted ?_
      exact hple.imp fun h => by simpa using Nat.le_of_lt h
    refine ⟨_, rfl, ?_, ?_, ?_⟩
    · dsimp only
      rw [hms]
      refine map_getD_sublist ⟨0, 0⟩ pts _ hple ?_
      intro i hi
      rcases List.mem_cons.mp hi with rfl | hi
      · omega
      · rcases List.mem_append.mp hi with hi | hi
        · have := (bndI i hi).2
          omega
        · rcases List.mem_singleton.mp hi with rfl
          omega
    · dsimp only
      rw [hms]
      cases pts with
      | nil => simp at hlen
      | cons p rest => simp
    · dsimp only
      rw [hms]
      have hmap : (0 :: (inner ++ [pts.length - 1])).map (fun i => pts.getD i ⟨0, 0⟩) =
          ((0 :: inner).map fun i => pts.getD i ⟨0, 0⟩) ++ [pts.getD (pts.length - 1) ⟨0, 0⟩] := by
        simp
      rw [hmap, List.getLast?_concat]
      rw [List.getD_eq_getElem?_getD, List.getLast?_eq_getElem?]
      have hlt : pts.length - 1 < pts.length := by omega
      rw [List.getElem?_eq_getElem hlt]
      rfl

end Utils

/-- C10 (amended): for every input point list and every *non-negative*
tolerance, `simplifyPath` terminates and returns a subsequence of the input
that starts with the input's first point and ends with its last point.  For a
negative tolerance the source recursion need not terminate
(`Utils.dpFuel_none_of_scan_eq`, `C10_counterexample`). -/
theorem C10_simplifyPath_subsequence (pts : List Pt) (tol : ℚ) (htol : 0 ≤ tol) :
    ∃ l, Utils.simplifyPath pts tol = some l ∧ l.Sublist pts ∧
      l.head? = pts.head? ∧ l.getLast? = pts.getLast? :=
  Utils.simplifyPath_spec pts tol htol

/-- Witness for C10 on a 3-point corner path with tolerance 1. -/
theorem C10_simplifyPath_subsequence_witness :
    ∃ l, Utils.simplifyPath [(⟨0, 0⟩ : Pt), ⟨1, 5⟩, ⟨2, 0⟩] 1 = some l ∧
      l.Sublist [(⟨0, 0⟩ : Pt), ⟨1, 5⟩, ⟨2, 0⟩] ∧
      l.head? = [(⟨0, 0⟩ : Pt), ⟨1, 5⟩, ⟨2, 0⟩].head? ∧
      l.getLast? = [(⟨0, 0⟩ : Pt), ⟨1, 5⟩, ⟨2, 0⟩].getLast? :=
  C10_simplifyPath_subsequence [⟨0, 0⟩, ⟨1, 5⟩, ⟨2, 0⟩] 1 (by norm_num)

/-- Counterexample to C10 as stated ("for every tolerance"): at tolerance
`-1` on three collinear points the `douglasPeucker` recursion never
terminates — the scan's best index stays at `start` while
`maxDistance > tolerance` always holds, so the source recurses on the same
range forever (`Utils.dpFuel_none_of_scan_eq` proves the recursion returns
nothing at *every* fuel); `simplifyPath` therefore returns no subsequence at
all. -/
theorem C10_counterexample :
    Utils.simplifyPath [(⟨0, 0⟩ : Pt), ⟨1, 0⟩, ⟨2, 0⟩] (-1) = none := by
  have hscan : Utils.dpScan [(⟨0, 0⟩ : Pt), ⟨1, 0⟩, ⟨2, 0⟩] 0 2 = (0, 0) := by
    norm_num [Utils.dpScan, Utils.perpDistSq, dist2, List.range']
  have hnone := Utils.dpFuel_none_of_scan_eq [(⟨0, 0⟩ : Pt), ⟨1, 0⟩, ⟨2, 0⟩] (-1) 0 2
    (by omega) hscan (by norm_num) 3
  simp [Utils.simplifyPath, hnone]

/-! ## Supporting lemmas: candidate preprocessing -/

theorem Improved.turfSimplify_headD (path : List (ℚ × ℚ)) :
    (Improved.turfSimplify path).headD (0, 0) = path.headD (0, 0) := by
  unfold Improved.turfSimplify
  dsimp only
  obtain ⟨l, hl, -, hhead, -⟩ :=
    Utils.simplifyPath_spec (path.map fun p => (⟨p.1, p.2⟩ : Pt)) (1 / 10000)
      (by norm_num)
  rw [hl]
  simp only [Option.getD_some]
  rw [List.headD_eq_head?_getD, List.head?_map, hhead, List.head?_map,
    List.headD_eq_head?_getD]
  cases path.head? with
  | none => rfl
  | some p => rfl

/-- C9: `preprocessRouteCandidates` is the per-way filter `processWay` over
the ways, and one way yields a candidate exactly when its assembled raw
geometry has at least 2 points and its first point (preserved by the
simplification) lies within 10 km of the search center; every other
well-formed way is rejected. -/
theorem C9_preprocess_exclusion (ways : List Improved.OSMWay)
    (nodes : List (ℕ × (ℚ × ℚ))) (center : ℚ × ℚ) (way : Improved.OSMWay) :
    Improved.preprocessRouteCandidates ways nodes center =
        ways.filterMap (Improved.processWay nodes center) ∧
      ((Improved.processWay nodes center way).isSome = true ↔
        2 ≤ (Improved.wayPath nodes way).length ∧
          Improved.turfDistanceKm center ((Improved.wayPath nodes way).headD (0, 0))
            ≤ 10) := by
  refine ⟨rfl, ?_⟩
  unfold Improved.processWay
  dsimp only
  rw [Improved.turfSimplify_headD (Improved.wayPath nodes way)]
  split_ifs with h1 h2
  · simp only [Option.isSome_none, Bool.false_eq_true, false_iff]
    intro ⟨h2', _⟩
    omega
  · simp only [Option.isSome_none, Bool.false_eq_true, false_iff]
    intro ⟨_, hd⟩
    exact absurd hd (not_le.mpr h2)
  · simp only [Option.isSome_some, true_iff]
    exact ⟨by omega, not_lt.mp h2⟩

/-! ## Supporting lemmas: the scalar-feature metric (C5) -/

theorem Svc.straightness_nonneg (d : List (List Pt)) : 0 ≤ Svc.straightness d := by
  unfold Svc.straightness
  split_ifs with h
  · exact le_min (by norm_num) (div_nonneg (Real.sqrt_nonneg _) h.le)
  · exact le_refl 0

theorem Svc.straightness_le_one (d : List (List Pt)) : Svc.straightness d ≤ 1 := by
  unfold Svc.straightness
  split_ifs with h
  · exact min_le_left _ _
  · norm_num

/-! ## Supporting lemmas: bounding-box extrema membership -/

theorem foldl_min_le_acc (t : List ℚ) : ∀ acc : ℚ, t.foldl min acc ≤ acc := by
  induction t with
  | nil => intro acc; exact le_refl acc
  | cons h t ih =>
    intro acc
    exact le_trans (ih (min acc h)) (min_le_left acc h)

theorem foldl_min_le_mem {x : ℚ} (t : List ℚ) (h : x ∈ t) :
    ∀ acc : ℚ, t.foldl min acc ≤ x := by
  induction t with
  | nil => cases h
  | cons y t ih =>
    intro acc
    rcases List.mem_cons.mp h with rfl | hmem
    · exact le_trans (foldl_min_le_acc t (min acc x)) (min_le_right acc x)
    · exact ih hmem (min acc y)

theorem acc_le_foldl_max (t : List ℚ) : ∀ acc : ℚ, acc ≤ t.foldl max acc := by
  induction t with
  | nil => intro acc; exact le_refl acc
  | cons h t ih =>
    intro acc
    exact le_trans (le_max_left acc h) (ih (max acc h))

theorem mem_le_foldl_max {x : ℚ} (t : List ℚ) (h : x ∈ t) :
    ∀ acc : ℚ, x ≤ t.foldl max acc := by
  induction t with
  | nil => cases h
  | cons y t ih =>
    intro acc
    rcases List.mem_cons.mp h with rfl | hmem
    · exact le_trans (le_max_right acc x) (acc_le_foldl_max t (max acc x))
    · exact ih hmem (max acc y)

theorem listMin_le_of_mem {l : List ℚ} {x : ℚ} (h : x ∈ l) : listMin l ≤ x := by
  cases l with
  | nil => cases h
  | cons y t =>
    rcases List.mem_cons.mp h with rfl | hmem
    · exact foldl_min_le_acc t x
    · exact foldl_min_le_mem t hmem y

theorem le_listMax_of_mem {l : List ℚ} {x : ℚ} (h : x ∈ l) : x ≤ listMax l := by
  cases l with
  | nil => cases h
  | cons y t =>
    rcases List.mem_cons.mp h with rfl | hmem
    · exact acc_le_foldl_max t x
    · exact mem_le_foldl_max t hmem y

theorem listMin_le_listMax {l : List ℚ} (h : l ≠ []) : listMin l ≤ listMax l := by
  cases l with
  | nil => exact absurd rfl h
  | cons y t =>
    exact le_trans (listMin_le_of_mem (List.mem_cons_self y t))
      (le_listMax_of_mem (List.mem_cons_self y t))

/-! ## Supporting lemmas: the haversine distance dominates the Euclidean
degree distance on the unit square (so the normalized straightness of
`extractRouteFeatures` stays in `[0, 1]` for pipeline inputs) -/

/-- For a coordinate difference `s` with `|s| ≤ 1`, the squared half-angle
sine of the haversine formula is pinched between `(s/180)²` (by Jordanʼs
inequality `sin x ≥ (2/π) x`) and `(π/360)²` (by `sin x ≤ x`). -/
theorem sin_half_sq_bounds (s : ℝ) (hs : |s| ≤ 1) :
    (s / 180) ^ 2 ≤ Real.sin (s * Real.pi / 180 / 2) ^ 2 ∧
      Real.sin (s * Real.pi / 180 / 2) ^ 2 ≤ (Real.pi / 360) ^ 2 := by
  have hpi := Real.pi_pos
  have hπ4 : Real.pi ≤ 4 := by nlinarith [Real.pi_lt_d2]
  have key : ∀ t : ℝ, 0 ≤ t → t ≤ 1 →
      (t / 180) ^ 2 ≤ Real.sin (t * Real.pi / 360) ^ 2 ∧
        Real.sin (t * Real.pi / 360) ^ 2 ≤ (Real.pi / 360) ^ 2 := by
    intro t ht0 ht1
    have hx0 : 0 ≤ t * Real.pi / 360 := by positivity
    have hx2 : t * Real.pi / 360 ≤ Real.pi / 2 := by nlinarith
    have hxpi : t * Real.pi / 360 ≤ Real.pi := by nlinarith
    have hsin0 : 0 ≤ Real.sin (t * Real.pi / 360) :=
      Real.sin_nonneg_of_nonneg_of_le_pi hx0 hxpi
    have hlow : 2 / Real.pi * (t * Real.pi / 360) ≤ Real.sin (t * Real.pi / 360) :=
      Real.mul_le_sin hx0 hx2
    have hlow' : t / 180 ≤ Real.sin (t * Real.pi / 360) := by
      have heq : 2 / Real.pi * (t * Real.pi / 360) = t / 180 := by
        field_simp
        ring
      linarith [heq ▸ hlow]
    have hup : Real.sin (t * Real.pi / 360) ≤ t * Real.pi / 360 := Real.sin_le hx0
    have hup' : Real.sin (t * Real.pi / 360) ≤ Real.pi / 360 := by nlinarith
    constructor
    · have ht180 : 0 ≤ t / 180 := by positivity
      nlinarith
    · nlinarith
  rcases abs_le.mp hs with ⟨hs1, hs2⟩
  rcases le_total 0 s with h | h
  · have hk := key s h hs2
    have e : s * Real.pi / 180 / 2 = s * Real.pi / 360 := by ring
    rw [e]
    exact hk
  · have hk := key (-s) (by linarith) (by linarith)
    have e : Real.sin (s * Real.pi / 180 / 2) ^ 2 = Real.sin (-s * Real.pi / 360) ^ 2 := by
      have e2 : -s * Real.pi / 360 = -(s * Real.pi / 180 / 2) := by ring
      rw [e2, Real.sin_neg]
      ring
    rw [e]
    have e3 : (s / 180) ^ 2 = (-s / 180) ^ 2 := by ring
    rw [e3]
    exact hk

/-- Cosine of a latitude in `[0, 1]` degrees is at least `319951/320000`
(via `cos x ≥ 1 - x²/2`). -/
theorem cos_lat_bound (l : ℝ) (h0 : 0 ≤ l) (h1 : l ≤ 1) :
    (319951 / 320000 : ℝ) ≤ Real.cos (l * Real.pi / 180) := by
  have hpi := Real.pi_pos
  have hπ : Real.pi < 3.15 := Real.pi_lt_d2
  have hq := Real.one_sub_sq_div_two_le_cos (x := l * Real.pi / 180)
  have h2 : 0 ≤ l * Real.pi / 180 := by positivity
  have h3 : l * Real.pi / 180 ≤ 3.15 / 180 := by nlinarith
  have hsq : (l * Real.pi / 180) ^ 2 ≤ (3.15 / 180) ^ 2 := by nlinarith
  nlinarith

namespace Offline

set_option maxHeartbeats 2000000 in
/-- On the unit square (where `normalizePathCoordinates` places every
candidate point) the haversine distance in kilometers dominates the flat
Euclidean distance in degrees: the central angle is `2·arcsin √a ≥ 2√a`,
and `√a ≥ √(Δlat² + Δlon²)/181` by the sine and cosine bounds, so the
distance is at least `12742/181 ≈ 70` times the Euclidean one. -/
theorem hav_ge_euclid (p q : ℚ × ℚ)
    (hp1 : 0 ≤ p.1 ∧ p.1 ≤ 1) (hp2 : 0 ≤ p.2 ∧ p.2 ≤ 1)
    (hq1 : 0 ≤ q.1 ∧ q.1 ≤ 1) (hq2 : 0 ≤ q.2 ∧ q.2 ≤ 1) :
    euclideanDistance p q ≤ haversineDistance p q := by
  have hpi := Real.pi_pos
  have hπ : Real.pi < 3.15 := Real.pi_lt_d2
  unfold haversineDistance euclideanDistance
  dsimp only
  set s : ℝ := ((q.1 : ℝ) - (p.1 : ℝ)) with hs
  set t : ℝ := ((q.2 : ℝ) - (p.2 : ℝ)) with ht
  have hp1' : (0 : ℝ) ≤ (p.1 : ℝ) ∧ ((p.1 : ℝ)) ≤ 1 := by
    constructor <;> [exact_mod_cast hp1.1; exact_mod_cast hp1.2]
  have hq1' : (0 : ℝ) ≤ (q.1 : ℝ) ∧ ((q.1 : ℝ)) ≤ 1 := by
    constructor <;> [exact_mod_cast hq1.1; exact_mod_cast hq1.2]
  have hp2' : (0 : ℝ) ≤ (p.2 : ℝ) ∧ ((p.2 : ℝ)) ≤ 1 := by
    constructor <;> [exact_mod_cast hp2.1; exact_mod_cast hp2.2]
  have hq2' : (0 : ℝ) ≤ (q.2 : ℝ) ∧ ((q.2 : ℝ)) ≤ 1 := by
    constructor <;> [exact_mod_cast hq2.1; exact_mod_cast hq2.2]
  have hs_abs : |s| ≤ 1 := by
    rw [abs_le]
    constructor <;> [linarith [hp1'.2, hq1'.1]; linarith [hp1'.1, hq1'.2]]
  have ht_abs : |t| ≤ 1 := by
    rw [abs_le]
    constructor <;> [linarith [hp2'.2, hq2'.1]; linarith [hp2'.1, hq2'.2]]
  obtain ⟨hA1l, hA1u⟩ := sin_half_sq_bounds s hs_abs
  obtain ⟨hA2l, hA2u⟩ := sin_half_sq_bounds t ht_abs
  have hc1 := cos_lat_bound _ hp1'.1 hp1'.2
  have hc2 := cos_lat_bound _ hq1'.1 hq1'.2
  have hc1u : Real.cos ((p.1 : ℝ) * Real.pi / 180) ≤ 1 := Real.cos_le_one _
  have hc2u : Real.cos ((q.1 : ℝ) * Real.pi / 180) ≤ 1 := Real.cos_le_one _
  set A1 := Real.sin (s * Real.pi / 180 / 2) with hA1
  set A2 := Real.sin (t * Real.pi / 180 / 2) with hA2
  set c1 := Real.cos ((p.1 : ℝ) * Real.pi / 180) with hc1d
  set c2 := Real.cos ((q.1 : ℝ) * Real.pi / 180) with hc2d
  set a := A1 * A1 + c1 * c2 * (A2 * A2) with ha
  have hA1sq : A1 * A1 = A1 ^ 2 := by ring
  have hA2sq : A2 * A2 = A2 ^ 2 := by ring
  have hπu2 : (Real.pi / 360) ^ 2 ≤ (315 / 36000 : ℝ) ^ 2 := by nlinarith
  have hc1nn : (0 : ℝ) ≤ c1 := by linarith
  have hc2nn : (0 : ℝ) ≤ c2 := by linarith
  have hc1c2 : (0 : ℝ) ≤ c1 * c2 := mul_nonneg hc1nn hc2nn
  have hc1c2u : c1 * c2 ≤ 1 := by
    have h := mul_le_mul hc1u hc2u hc2nn (by norm_num : (0 : ℝ) ≤ 1)
    linarith
  have hcp : (9996 / 10000 : ℝ) ≤ c1 * c2 := by
    have h := mul_le_mul hc1 hc2 (by norm_num) hc1nn
    linarith
  have hA1nn : 0 ≤ A1 * A1 := mul_self_nonneg A1
  have hA2nn : 0 ≤ A2 * A2 := mul_self_nonneg A2
  have ha0 : 0 ≤ a := by
    have := mul_nonneg hc1c2 hA2nn
    linarith
  have ha_ub : a ≤ (1 : ℝ) / 4 := by
    have h1 : c1 * c2 * (A2 * A2) ≤ A2 * A2 := by nlinarith
    nlinarith
  have ha_lb : (9996 / 10000 : ℝ) * ((s / 180) ^ 2 + (t / 180) ^ 2) ≤ a := by
    have h1 : (9996 / 10000 : ℝ) * ((t / 180) ^ 2) ≤ c1 * c2 * (A2 * A2) := by
      have h2 : (9996 / 10000 : ℝ) * ((t / 180) ^ 2) ≤ (c1 * c2) * ((t / 180) ^ 2) :=
        mul_le_mul_of_nonneg_right hcp (sq_nonneg _)
      have h3 : (c1 * c2) * ((t / 180) ^ 2) ≤ (c1 * c2) * (A2 * A2) := by
        rw [hA2sq]
        exact mul_le_mul_of_nonneg_left hA2l hc1c2
      linarith
    have h4 : (s / 180) ^ 2 ≤ A1 * A1 := by rw [hA1sq]; exact hA1l
    linarith
  have h1a : (0 : ℝ) < 1 - a := by linarith
  have hx : 0 < Real.sqrt (1 - a) := Real.sqrt_pos.mpr h1a
  rw [jsAtan2, if_pos hx]
  have hsa1 : Real.sqrt a < 1 := by
    rw [show (1 : ℝ) = Real.sqrt 1 from (Real.sqrt_one).symm]
    exact Real.sqrt_lt_sqrt ha0 (by linarith)
  have harc : Real.arctan (Real.sqrt a / Real.sqrt (1 - a)) = Real.arcsin (Real.sqrt a) := by
    rw [Real.arcsin_eq_arctan (by constructor <;> [linarith [Real.sqrt_nonneg a]; exact hsa1])]
    rw [Real.sq_sqrt ha0]
  have harcsin_ge : Real.sqrt a ≤ Real.arcsin (Real.sqrt a) := by
    have h0 : 0 ≤ Real.arcsin (Real.sqrt a) :=
      Real.arcsin_nonneg.mpr (Real.sqrt_nonneg a)
    have hsin := Real.sin_le h0
    rw [Real.sin_arcsin (by linarith [Real.sqrt_nonneg a]) hsa1.le] at hsin
    exact hsin
  have hE : Real.sqrt (((p.1 : ℝ) - q.1) ^ 2 + ((p.2 : ℝ) - q.2) ^ 2)
      = Real.sqrt (s ^ 2 + t ^ 2) := by
    congr 1
    rw [hs, ht]
    ring
  have hEnn : 0 ≤ Real.sqrt (s ^ 2 + t ^ 2) := Real.sqrt_nonneg _
  have hsqa_ge : (1 / 181 : ℝ) * Real.sqrt (s ^ 2 + t ^ 2) ≤ Real.sqrt a := by
    apply Real.le_sqrt_of_sq_le
    have hsq : ((1 / 181 : ℝ) * Real.sqrt (s ^ 2 + t ^ 2)) ^ 2
        = (1 / 32761) * (s ^ 2 + t ^ 2) := by
      rw [mul_pow, Real.sq_sqrt (by positivity)]
      norm_num
    rw [hsq]
    linarith [ha_lb, sq_nonneg s, sq_nonneg t]
  rw [hE]
  rw [harc]
  linarith [harcsin_ge, hsqa_ge, hEnn]

end Offline

/-! ## Supporting lemmas: polyline length dominates the chord -/

theorem sqrt_tri (x1 y1 x2 y2 : ℝ) :
    Real.sqrt ((x1 + x2) ^ 2 + (y1 + y2) ^ 2) ≤
      Real.sqrt (x1 ^ 2 + y1 ^ 2) + Real.sqrt (x2 ^ 2 + y2 ^ 2) := by
  have hA := Real.sqrt_nonneg (x1 ^ 2 + y1 ^ 2)
  have hB := Real.sqrt_nonneg (x2 ^ 2 + y2 ^ 2)
  have hA2 : Real.sqrt (x1 ^ 2 + y1 ^ 2) ^ 2 = x1 ^ 2 + y1 ^ 2 :=
    Real.sq_sqrt (by positivity)
  have hB2 : Real.sqrt (x2 ^ 2 + y2 ^ 2) ^ 2 = x2 ^ 2 + y2 ^ 2 :=
    Real.sq_sqrt (by positivity)
  have hAB : x1 * x2 + y1 * y2 ≤
      Real.sqrt (x1 ^ 2 + y1 ^ 2) * Real.sqrt (x2 ^ 2 + y2 ^ 2) := by
    rcases le_or_lt (x1 * x2 + y1 * y2) 0 with h | h
    · exact h.trans (mul_nonneg hA hB)
    · have hsq : (x1 * x2 + y1 * y2) ^ 2 ≤ (x1 ^ 2 + y1 ^ 2) * (x2 ^ 2 + y2 ^ 2) := by
        nlinarith [sq_nonneg (x1 * y2 - x2 * y1)]
      have h1 : x1 * x2 + y1 * y2 = Real.sqrt ((x1 * x2 + y1 * y2) ^ 2) :=
        (Real.sqrt_sq h.le).symm
      rw [h1, ← Real.sqrt_mul (by positivity)]
      exact Real.sqrt_le_sqrt hsq
  have hsum : (x1 + x2) ^ 2 + (y1 + y2) ^ 2 ≤
      (Real.sqrt (x1 ^ 2 + y1 ^ 2) + Real.sqrt (x2 ^ 2 + y2 ^ 2)) ^ 2 := by
    nlinarith
  calc Real.sqrt ((x1 + x2) ^ 2 + (y1 + y2) ^ 2)
      ≤ Real.sqrt ((Real.sqrt (x1 ^ 2 + y1 ^ 2) + Real.sqrt (x2 ^ 2 + y2 ^ 2)) ^ 2) :=
        Real.sqrt_le_sqrt hsum
    _ = Real.sqrt (x1 ^ 2 + y1 ^ 2) + Real.sqrt (x2 ^ 2 + y2 ^ 2) :=
        Real.sqrt_sq (by positivity)

theorem getLastD_congr {α : Type} : ∀ (l : List α) (a b : α), l ≠ [] →
    l.getLastD a = l.getLastD b
  | [], _, _, h => absurd rfl h
  | [_], _, _, _ => rfl
  | _ :: _ :: _, _, _, _ => by
    simp only [List.getLastD_cons]

namespace Offline

theorem euclideanDistance_triangle (p q r : ℚ × ℚ) :
    euclideanDistance p r ≤ euclideanDistance p q + euclideanDistance q r := by
  unfold euclideanDistance
  have h := sqrt_tri ((p.1 : ℝ) - q.1) ((p.2 : ℝ) - q.2) ((q.1 : ℝ) - r.1) ((q.2 : ℝ) - r.2)
  rw [show ((p.1 : ℝ) - r.1) ^ 2 + ((p.2 : ℝ) - r.2) ^ 2 =
      (((p.1 : ℝ) - q.1) + ((q.1 : ℝ) - r.1)) ^ 2 +
        (((p.2 : ℝ) - q.2) + ((q.2 : ℝ) - r.2)) ^ 2 by ring]
  exact h

theorem chord_le_path (l : List (ℚ × ℚ)) : ∀ x : ℚ × ℚ,
    euclideanDistance x ((x :: l).getLastD (0, 0)) ≤
      (((x :: l).zip l).map fun pq => euclideanDistance pq.1 pq.2).sum := by
  induction l with
  | nil =>
    intro x
    simp [euclideanDistance_self]
  | cons y t ih =>
    intro x
    have hlast : ((x :: y :: t).getLastD (0, 0)) = ((y :: t).getLastD (0, 0)) := by
      rw [List.getLastD_cons]
      exact getLastD_congr (y :: t) x (0, 0) (List.cons_ne_nil y t)
    rw [hlast, List.zip_cons_cons, List.map_cons, List.sum_cons]
    have h1 := euclideanDistance_triangle x y ((y :: t).getLastD (0, 0))
    have h2 := ih y
    linarith

theorem direct_le_euclid_sum (r : List (ℚ × ℚ)) (h : r ≠ []) :
    euclideanDistance (r.headD (0, 0)) (r.getLastD (0, 0)) ≤
      ((r.zip r.tail).map fun pq => euclideanDistance pq.1 pq.2).sum := by
  cases r with
  | nil => exact absurd rfl h
  | cons x l =>
    simpa using chord_le_path l x

theorem euclid_sum_le_pathDistance (r : List (ℚ × ℚ))
    (hm : ∀ z ∈ r, (0 ≤ z.1 ∧ z.1 ≤ 1) ∧ (0 ≤ z.2 ∧ z.2 ≤ 1)) :
    ((r.zip r.tail).map fun pq => euclideanDistance pq.1 pq.2).sum ≤
      calculatePathDistance r := by
  unfold calculatePathDistance
  apply List.sum_le_sum
  intro pq hpq
  have h1 : pq.1 ∈ r := (List.of_mem_zip hpq).1
  have h2 : pq.2 ∈ r := (List.tail_sublist r).mem (List.of_mem_zip hpq).2
  obtain ⟨ha1, ha2⟩ := hm pq.1 h1
  obtain ⟨hb1, hb2⟩ := hm pq.2 h2
  exact hav_ge_euclid pq.1 pq.2 ha1 ha2 hb1 hb2

/-! ## Supporting lemmas: pipeline inputs of the geometric metric lie in the
unit square, and the metric stays in the unit interval on them -/

theorem normalizePathCoordinates_mem (path : List (ℚ × ℚ)) :
    ∀ z ∈ normalizePathCoordinates path,
      (0 ≤ z.1 ∧ z.1 ≤ 1) ∧ (0 ≤ z.2 ∧ z.2 ≤ 1) := by
  intro z hz
  unfold normalizePathCoordinates at hz
  split_ifs at hz with hlen
  · cases hz
  · simp only [List.mem_map] at hz
    obtain ⟨pt, hpt, rfl⟩ := hz
    dsimp only
    constructor
    · have h1 : listMin (path.map (·.1)) ≤ pt.1 :=
        listMin_le_of_mem (List.mem_map_of_mem _ hpt)
      have h2 : pt.1 ≤ listMax (path.map (·.1)) :=
        le_listMax_of_mem (List.mem_map_of_mem _ hpt)
      split_ifs with hr
      · constructor
        · have hpt1 : pt.1 = listMin (path.map (·.1)) := le_antisymm (by linarith) h1
          rw [hpt1]
          simp
        · have hpt1 : pt.1 = listMin (path.map (·.1)) := le_antisymm (by linarith) h1
          rw [hpt1]
          simp
      · have hpos : 0 < listMax (path.map (·.1)) - listMin (path.map (·.1)) :=
          lt_of_le_of_ne (by linarith) (Ne.symm hr)
        constructor
        · exact div_nonneg (by linarith) hpos.le
        · rw [div_le_one hpos]
          linarith
    · have h1 : listMin (path.map (·.2)) ≤ pt.2 :=
        listMin_le_of_mem (List.mem_map_of_mem _ hpt)
      have h2 : pt.2 ≤ listMax (path.map (·.2)) :=
        le_listMax_of_mem (List.mem_map_of_mem _ hpt)
      split_ifs with hr
      · constructor
        · have hpt2 : pt.2 = listMin (path.map (·.2)) := le_antisymm (by linarith) h1
          rw [hpt2]
          simp
        · have hpt2 : pt.2 = listMin (path.map (·.2)) := le_antisymm (by linarith) h1
          rw [hpt2]
          simp
      · have hpos : 0 < listMax (path.map (·.2)) - listMin (path.map (·.2)) :=
          lt_of_le_of_ne (by linarith) (Ne.symm hr)
        constructor
        · exact div_nonneg (by linarith) hpos.le
        · rw [div_le_one hpos]
          linarith

theorem extractRouteFeatures_bounds (r : List (ℚ × ℚ))
    (hm : ∀ z ∈ r, (0 ≤ z.1 ∧ z.1 ≤ 1) ∧ (0 ≤ z.2 ∧ z.2 ≤ 1)) :
    0 ≤ (extractRouteFeatures r).aspectRatio ∧
      (0 ≤ (extractRouteFeatures r).complexity ∧ (extractRouteFeatures r).complexity ≤ 1) ∧
      (0 ≤ (extractRouteFeatures r).straightness ∧ (extractRouteFeatures r).straightness ≤ 1) := by
  unfold extractRouteFeatures
  split_ifs with hlen
  · dsimp only
    norm_num
  · push_neg at hlen
    have hne : r ≠ [] := by
      intro h
      rw [h] at hlen
      simp at hlen
    dsimp only
    refine ⟨?_, ⟨?_, ?_⟩, ?_⟩
    · split_ifs with hw
      · have hmin : listMin (r.map (·.1)) ≤ listMax (r.map (·.1)) :=
          listMin_le_listMax (by simpa using hne)
        have hq : (0 : ℚ) ≤ (listMax (r.map (·.1)) - listMin (r.map (·.1))) /
            (listMax (r.map (·.2)) - listMin (r.map (·.2))) :=
          div_nonneg (by linarith) (by linarith)
        exact_mod_cast hq
      · norm_num
    · apply le_min (by norm_num)
      apply div_nonneg (Nat.cast_nonneg _)
      have h3 : (3 : ℝ) ≤ (r.length : ℝ) := by exact_mod_cast hlen
      positivity
    · exact min_le_left _ _
    · split_ifs with htot
      · constructor
        · exact div_nonneg (Real.sqrt_nonneg _) htot.le
        · rw [div_le_one htot]
          calc euclideanDistance (r.headD (0, 0)) (r.getLastD (0, 0))
              ≤ ((r.zip r.tail).map fun pq => euclideanDistance pq.1 pq.2).sum :=
                direct_le_euclid_sum r hne
            _ ≤ calculatePathDistance r := euclid_sum_le_pathDistance r hm
      · norm_num

theorem calculateGeometricSimilarity_unit (sf : GeomFeatures) (r : List (ℚ × ℚ))
    (hsa : 0 < sf.aspectRatio) (hc0 : 0 ≤ sf.complexity) (hc1 : sf.complexity ≤ 1)
    (hs0 : 0 ≤ sf.straightness) (hs1 : sf.straightness ≤ 1)
    (hm : ∀ z ∈ r, (0 ≤ z.1 ∧ z.1 ≤ 1) ∧ (0 ≤ z.2 ∧ z.2 ≤ 1)) :
    0 ≤ calculateGeometricSimilarity sf r ∧ calculateGeometricSimilarity sf r ≤ 1 := by
  obtain ⟨hra, ⟨hrc0, hrc1⟩, hrs0, hrs1⟩ := extractRouteFeatures_bounds r hm
  unfold calculateGeometricSimilarity
  dsimp only
  set rf := extractRouteFeatures r
  have hmax : 0 < max sf.aspectRatio rf.aspectRatio := lt_max_of_lt_left hsa
  have habs : |sf.aspectRatio - rf.aspectRatio| ≤ max sf.aspectRatio rf.aspectRatio := by
    rw [abs_sub_le_iff]
    constructor
    · have h := le_max_left sf.aspectRatio rf.aspectRatio
      linarith
    · have h := le_max_right sf.aspectRatio rf.aspectRatio
      linarith
  have hq0 : 0 ≤ |sf.aspectRatio - rf.aspectRatio| / max sf.aspectRatio rf.aspectRatio :=
    div_nonneg (abs_nonneg _) hmax.le
  have hq1 : |sf.aspectRatio - rf.aspectRatio| / max sf.aspectRatio rf.aspectRatio ≤ 1 := by
    rw [div_le_one hmax]
    exact habs
  have hcabs : |sf.complexity - rf.complexity| ≤ 1 := by
    rw [abs_sub_le_iff]
    constructor <;> linarith
  have hsabs : |sf.straightness - rf.straightness| ≤ 1 := by
    rw [abs_sub_le_iff]
    constructor <;> linarith
  have hcabs0 := abs_nonneg (sf.complexity - rf.complexity)
  have hsabs0 := abs_nonneg (sf.straightness - rf.straightness)
  constructor <;> [linarith; linarith]

end Offline

/-! ## Supporting lemmas: the other per-metric similarities stay in `[0, 1]` -/

theorem acc_le_foldl_max_wt {α : Type} (f : α → WithTop ℝ) (l : List α) :
    ∀ acc : WithTop ℝ, acc ≤ l.foldl (fun a x => max a (f x)) acc := by
  induction l with
  | nil => intro acc; exact le_refl acc
  | cons h t ih =>
    intro acc
    exact le_trans (le_max_left acc (f h)) (ih (max acc (f h)))

namespace Offline

theorem directedHausdorffDistance_nonneg (A B : List (ℚ × ℚ)) :
    0 ≤ directedHausdorffDistance A B :=
  acc_le_foldl_max_wt _ A 0

theorem calculateHausdorffSimilarity_mem (A B : List (ℚ × ℚ)) :
    0 ≤ calculateHausdorffSimilarity A B ∧ calculateHausdorffSimilarity A B ≤ 1 := by
  unfold calculateHausdorffSimilarity
  dsimp only
  split_ifs with htop
  · norm_num
  · obtain ⟨x, hx⟩ := WithTop.ne_top_iff_exists.mp htop
    have h0 : (0 : WithTop ℝ) ≤ (x : WithTop ℝ) := by
      rw [hx]
      exact le_trans (directedHausdorffDistance_nonneg A B) (le_max_left _ _)
    have hx0 : (0 : ℝ) ≤ x := by exact_mod_cast h0
    rw [← hx, WithTop.untop'_coe]
    constructor
    · exact (Real.exp_pos _).le
    · rw [Real.exp_le_one_iff]
      linarith

theorem calculateDTWSimilarity_mem (A B : List (ℚ × ℚ)) :
    0 ≤ calculateDTWSimilarity A B ∧ calculateDTWSimilarity A B ≤ 1 := by
  unfold calculateDTWSimilarity
  dsimp only
  split_ifs with htop
  · norm_num
  · obtain ⟨x, hx⟩ := WithTop.ne_top_iff_exists.mp htop
    have h0 : (0 : WithTop ℝ) ≤ (x : WithTop ℝ) := by
      rw [hx]
      exact dtwMat_nonneg A B A.length B.length
    have hx0 : (0 : ℝ) ≤ x := by exact_mod_cast h0
    rw [← hx, WithTop.untop'_coe]
    constructor
    · exact (Real.exp_pos _).le
    · rw [Real.exp_le_one_iff]
      have hm : (0 : ℝ) ≤ ((max A.length B.length : ℕ) : ℝ) := Nat.cast_nonneg _
      have hd := div_nonneg hx0 hm
      rw [neg_div]
      linarith

theorem computeFourierDescriptors_length (path : List (ℚ × ℚ)) :
    (computeFourierDescriptors path).length = min 8 path.length := by
  simp only [computeFourierDescriptors, List.length_map, List.length_range]

theorem calculateFourierSimilarity_mem (A B : List (ℚ × ℚ)) (hA : A ≠ []) (hB : B ≠ []) :
    0 ≤ calculateFourierSimilarity A B ∧ calculateFourierSimilarity A B ≤ 1 := by
  unfold calculateFourierSimilarity
  dsimp only
  have hlA : (computeFourierDescriptors A).length = min 8 A.length :=
    computeFourierDescriptors_length A
  have hlB : (computeFourierDescriptors B).length = min 8 B.length :=
    computeFourierDescriptors_length B
  have hA1 : 1 ≤ A.length := List.length_pos.mpr hA
  have hB1 : 1 ≤ B.length := List.length_pos.mpr hB
  have hmin1 : 1 ≤ min (computeFourierDescriptors A).length
      (computeFourierDescriptors B).length := by
    rw [hlA, hlB]
    omega
  have hden : (0 : ℝ) < ((min (computeFourierDescriptors A).length
      (computeFourierDescriptors B).length : ℕ) : ℝ) := by
    exact_mod_cast hmin1
  have hsum0 : 0 ≤ (((computeFourierDescriptors A).zip (computeFourierDescriptors B)).map
      fun ab => Real.exp (-|ab.1 - ab.2|)).sum := by
    apply List.sum_nonneg
    intro x hx
    obtain ⟨ab, _, rfl⟩ := List.mem_map.mp hx
    exact (Real.exp_pos _).le
  have hsum1 : (((computeFourierDescriptors A).zip (computeFourierDescriptors B)).map
      fun ab => Real.exp (-|ab.1 - ab.2|)).sum ≤
      ((min (computeFourierDescriptors A).length
        (computeFourierDescriptors B).length : ℕ) : ℝ) := by
    have hb : ∀ x ∈ (((computeFourierDescriptors A).zip (computeFourierDescriptors B)).map
        fun ab => Real.exp (-|ab.1 - ab.2|)), x ≤ 1 := by
      intro x hx
      obtain ⟨ab, _, rfl⟩ := List.mem_map.mp hx
      rw [Real.exp_le_one_iff]
      exact neg_nonpos.mpr (abs_nonneg _)
    have hs := List.sum_le_card_nsmul _ 1 hb
    rw [List.length_map, List.length_zip] at hs
    simpa using hs
  constructor
  · exact div_nonneg hsum0 hden.le
  · rw [div_le_one hden]
    exact hsum1

end Offline

theorem clamp01_mem (x : ℝ) : 0 ≤ clamp01 x ∧ clamp01 x ≤ 1 := by
  unfold clamp01
  exact ⟨le_max_left 0 _, max_le (by norm_num) (min_le_left 1 x)⟩

theorem advancedSimilarityOf_mem (c : Improved.CreativityLevel) (sf : GeomFeatures)
    (ns cp : List (ℚ × ℚ)) :
    0 ≤ Offline.advancedSimilarityOf c sf ns cp ∧
      Offline.advancedSimilarityOf c sf ns cp ≤ 1 := by
  unfold Offline.advancedSimilarityOf
  exact clamp01_mem _

theorem roundedSimilarityScore_mem (s : ℝ) (h0 : 0 ≤ s) (h1 : s ≤ 1) :
    0 ≤ Offline.roundedSimilarityScore s ∧ Offline.roundedSimilarityScore s ≤ 1 := by
  unfold Offline.roundedSimilarityScore Improved.jsRound
  have hf0 : (0 : ℤ) ≤ ⌊s * 100 + 1 / 2⌋ := Int.le_floor.mpr (by push_cast; linarith)
  have hf1 : ⌊s * 100 + 1 / 2⌋ ≤ 100 := by
    have hle : (⌊s * 100 + 1 / 2⌋ : ℝ) ≤ s * 100 + 1 / 2 := Int.floor_le _
    have h2 : (⌊s * 100 + 1 / 2⌋ : ℝ) < 101 := by linarith
    exact_mod_cast Int.lt_add_one_iff.mp (by exact_mod_cast h2)
  constructor
  · apply div_nonneg _ (by norm_num)
    exact_mod_cast hf0
  · rw [div_le_one (by norm_num)]
    exact_mod_cast hf1

/-! ## Supporting lemmas: the shape-side features fed to the geometric
metric -/

theorem Svc.analyzeShape_isSome_dims (d : List (List Pt))
    (h : (Svc.analyzeShape d).isSome = true) :
    1 ≤ Svc.widthOf d ∧ 1 ≤ Svc.heightOf d := by
  simp only [Svc.analyzeShape] at h
  split_ifs at h with h1 h2
  · simp at h
  · simp at h
  · push_neg at h2
    constructor
    · simpa [Svc.widthOf, Svc.maxXOf, Svc.minXOf] using h2.1
    · simpa [Svc.heightOf, Svc.maxYOf, Svc.minYOf] using h2.2

theorem Svc.complexity_mem (d : List (List Pt)) :
    0 ≤ Svc.complexity d ∧ Svc.complexity d ≤ 1 := by
  unfold Svc.complexity
  dsimp only
  constructor
  · exact le_trans (by norm_num) (le_max_left _ _)
  · exact max_le (by norm_num) (min_le_left _ _)

theorem Svc.geomFeatures_aspect_pos (d : List (List Pt))
    (h : (Svc.analyzeShape d).isSome = true) :
    0 < (Svc.geomFeatures d).aspectRatio := by
  obtain ⟨hw, hh⟩ := Svc.analyzeShape_isSome_dims d h
  have hq : (0 : ℚ) < Svc.widthOf d / Svc.heightOf d :=
    div_pos (by linarith) (by linarith)
  show (0 : ℝ) < ((Svc.widthOf d / Svc.heightOf d : ℚ) : ℝ)
  exact_mod_cast hq

/-! ## Supporting lemmas: fallback similarity scores -/

theorem fallback_route_scores (d : List (List Pt)) (resp : Except Unit (List Fallback.Way))
    (mode : TransportationMode) (rand : ℕ → ℚ)
    (hr : ∀ i, 0 ≤ rand i ∧ rand i < 1) :
    ∀ rt ∈ Fallback.findBasicRoutes d resp mode rand,
      0 ≤ rt.similarityScore ∧ rt.similarityScore ≤ 1 := by
  intro rt hmem
  unfold Fallback.findBasicRoutes at hmem
  split_ifs at hmem with hshape
  · unfold Fallback.getSimpleRoutes at hmem
    cases resp with
    | error e => simp at hmem
    | ok ways =>
      dsimp only at hmem
      rw [List.mem_map] at hmem
      obtain ⟨iw, hin, rfl⟩ := hmem
      dsimp only
      obtain ⟨h0, h1⟩ := hr iw.1
      have h0' : (0 : ℝ) ≤ ((rand iw.1 : ℚ) : ℝ) := by exact_mod_cast h0
      have h1' : ((rand iw.1 : ℚ) : ℝ) < 1 := by exact_mod_cast h1
      constructor <;> linarith
  · unfold Fallback.generateDummyRoutes at hmem
    rcases List.mem_cons.mp hmem with rfl | hmem2
    · dsimp only
      obtain ⟨h0, h1⟩ := hr 2
      have h0' : (0 : ℝ) ≤ ((rand 2 : ℚ) : ℝ) := by exact_mod_cast h0
      have h1' : ((rand 2 : ℚ) : ℝ) < 1 := by exact_mod_cast h1
      constructor <;> linarith
    · rcases List.mem_cons.mp hmem2 with rfl | hmem3
      · dsimp only
        obtain ⟨h0, h1⟩ := hr 5
        have h0' : (0 : ℝ) ≤ ((rand 5 : ℚ) : ℝ) := by exact_mod_cast h0
        have h1' : ((rand 5 : ℚ) : ℝ) < 1 := by exact_mod_cast h1
        constructor <;> linarith
      · cases hmem3

/-- C5: every similarity score the pipeline produces lies in `[0, 1]`:
(i) the DTW, (ii) Hausdorff and (iii, on non-empty inputs) Fourier
per-metric scores; (iv) the geometric per-metric score for any drawing the
service analyzer accepts, against any candidate path normalized by
`normalizePathCoordinates` exactly as `calculateAdvancedSimilarity` passes it
(source line 215); (v) the per-candidate similarity after the
creativity-weighted combination and clamp (source lines 259–262); (vi) the
clamp itself, which the improved serviceʼs `performAdvancedMatching` applies
to both similarity and confidence; (vii) the rounded `similarityScore` of
every returned offline `Route`; and (viii) the `similarityScore` of every
route the fallback service returns, for any `Math.random()` stream drawing
in `[0, 1)`. -/
theorem C5_similarity_scores_unit_interval :
    (∀ A B : List (ℚ × ℚ),
        0 ≤ Offline.calculateDTWSimilarity A B ∧ Offline.calculateDTWSimilarity A B ≤ 1) ∧
      (∀ A B : List (ℚ × ℚ),
        0 ≤ Offline.calculateHausdorffSimilarity A B ∧
          Offline.calculateHausdorffSimilarity A B ≤ 1) ∧
      (∀ A B : List (ℚ × ℚ), A ≠ [] → B ≠ [] →
        0 ≤ Offline.calculateFourierSimilarity A B ∧
          Offline.calculateFourierSimilarity A B ≤ 1) ∧
      (∀ (d : List (List Pt)) (route : List (ℚ × ℚ)),
        (Svc.analyzeShape d).isSome = true →
        0 ≤ Offline.calculateGeometricSimilarity (Svc.geomFeatures d)
              (Offline.normalizePathCoordinates route) ∧
          Offline.calculateGeometricSimilarity (Svc.geomFeatures d)
              (Offline.normalizePathCoordinates route) ≤ 1) ∧
      (∀ (c : Improved.CreativityLevel) (sf : GeomFeatures) (ns cp : List (ℚ × ℚ)),
        0 ≤ Offline.advancedSimilarityOf c sf ns cp ∧
          Offline.advancedSimilarityOf c sf ns cp ≤ 1) ∧
      (∀ x : ℝ, 0 ≤ clamp01 x ∧ clamp01 x ≤ 1) ∧
      (∀ s : ℝ, 0 ≤ s → s ≤ 1 →
        0 ≤ Offline.roundedSimilarityScore s ∧ Offline.roundedSimilarityScore s ≤ 1) ∧
      (∀ (d : List (List Pt)) (resp : Except Unit (List Fallback.Way))
        (mode : TransportationMode) (rand : ℕ → ℚ),
        (∀ i, 0 ≤ rand i ∧ rand i < 1) →
        ∀ rt ∈ Fallback.findBasicRoutes d resp mode rand,
          0 ≤ rt.similarityScore ∧ rt.similarityScore ≤ 1) := by
  refine ⟨Offline.calculateDTWSimilarity_mem,
    Offline.calculateHausdorffSimilarity_mem,
    Offline.calculateFourierSimilarity_mem,
    ?_,
    advancedSimilarityOf_mem,
    clamp01_mem,
    roundedSimilarityScore_mem,
    fallback_route_scores⟩
  intro d route h
  exact Offline.calculateGeometricSimilarity_unit (Svc.geomFeatures d)
    (Offline.normalizePathCoordinates route)
    (Svc.geomFeatures_aspect_pos d h)
    (Svc.complexity_mem d).1 (Svc.complexity_mem d).2
    (Svc.straightness_nonneg d) (Svc.straightness_le_one d)
    (Offline.normalizePathCoordinates_mem route)
